import Mathlib

/-!
# Verification of the TypeT5/SPOT chunking & rollout engine

Shallow embedding of the data-transformation and orchestration code in
`spot/data.py` and `spot/dagger.py`, together with proofs of the key
invariants of the chunking/tokenization engine, the output decoder, the
replay buffer, the rollout loop and the checkpointing counter.

Conventions used throughout:
* Python `int` token ids are modelled as `Int`; list indices/lengths as `Nat`.
* Python list indexing `l[i]` (negative indices wrap once, out-of-range
  raises `IndexError`) is modelled by `pyGet`.
* Fallible Python code (assertions, raised exceptions) is modelled with
  `Except String`.
* External collaborators (the tokenizer's `encode`/`decode`, the type
  parser, the model, the type checker) are parameters, as the spec treats
  them as interfaces only.
-/

namespace Spot

/-- Python list indexing `l[i]`: a negative index wraps once
(`l[-1]` is the last element); anything still out of range is an
`IndexError`, modelled by `none`. -/
def pyGet {α : Type} (l : List α) (i : Int) : Option α :=
  if 0 ≤ i then l[i.toNat]?
  else
    let j : Int := (l.length : Int) + i
    if 0 ≤ j then l[j.toNat]? else none

theorem pyGet_nonneg {α : Type} (l : List α) (i : Int) (h0 : 0 ≤ i) :
    pyGet l i = l[i.toNat]? := by
  simp [pyGet, h0]

theorem pyGet_isSome {α : Type} (l : List α) (i : Int)
    (hlo : -(l.length : Int) ≤ i) (hhi : i < l.length) :
    ∃ v, pyGet l i = some v := by
  unfold pyGet
  by_cases h0 : 0 ≤ i
  · simp only [h0, if_true]
    have : i.toNat < l.length := by omega
    exact ⟨l[i.toNat], List.getElem?_eq_getElem this⟩
  · simp only [h0, if_false]
    have hj : 0 ≤ (l.length : Int) + i := by omega
    simp only [hj, if_true]
    have : ((l.length : Int) + i).toNat < l.length := by omega
    exact ⟨_, List.getElem?_eq_getElem this⟩

theorem pyGet_eq_getD {α : Type} [Inhabited α] (l : List α) (i : Int)
    (h0 : 0 ≤ i) (hhi : i < l.length) :
    pyGet l i = some (l.getD i.toNat default) := by
  rw [pyGet_nonneg l i h0]
  have hlt : i.toNat < l.length := by omega
  rw [List.getD_eq_getElem l default hlt]
  exact List.getElem?_eq_getElem hlt

/-! ## Data model (spot/data.py)

`PythonType` lives in `spot.type_env` (outside `src/`); the claims only
need the `Any` sentinel and equality, so we model it with a head name. -/

inductive PythonType where
  | Any : PythonType
  | Named : String → PythonType
deriving DecidableEq, Repr, Inhabited

/-- String rendering `str(ty)` used when a revealed type is inlined. -/
def PythonType.show : PythonType → String
  | .Any => "Any"
  | .Named h => h

structure CodePosition where
  line : Int
  column : Int
deriving DecidableEq, Repr, Inhabited

structure CodeRange where
  start : CodePosition
  stop : CodePosition
deriving DecidableEq, Repr, Inhabited

/-- `AnnotInfo` (from `spot.type_env`): identity of one annotation site.
Only the structural path and source range are relevant to the claims. -/
structure AnnotInfo where
  path : String
  annot_range : Option CodeRange := none
deriving DecidableEq, Repr, Inhabited

/-- The tokenizer collaborator interface (`TokenizerSPOT`): reserved
special ids plus total `encode`/`decode` functions. -/
structure Tokenizer where
  bosId : Int
  eosId : Int
  maskId : Int
  padId : Int
  /-- `additional_special_tokens_ids` (the marker/"extra id" slots). -/
  addSpecialIds : List Int
  encode : String → List Int
  decode : List Int → String

/-- `TokenizedSrc` from `spot/data.py`. -/
structure TokenizedSrc where
  file : String
  repo : String
  types : List PythonType
  types_pos : List Nat
  types_str : List String
  types_tks : List (List Int)
  types_info : List AnnotInfo
  origin_code : String
  tokenized_code : List Int
deriving Repr

/-- The masked-source record consumed by
`_TokenizedSrcHelper.dict_to_tokenized_src` (the dict built by
`mask_type_annots`), modelled as an explicit record. -/
structure MaskedSrc where
  file : String
  repo : String
  cst_code : String
  code_segs : List String
  types : List PythonType
  types_str : List String
  annots_info : List AnnotInfo
  is_label : Option (List Bool)

/-! ## Tokenized Source Builder (`dict_to_tokenized_src`) -/

/-- The test `is_label is None or is_label[i]` of `dict_to_tokenized_src`
(`is_label[i]` is Python indexing, so a too-short list is an error). -/
def labOf (isLab : Option (List Bool)) (i : Nat) : Except String Bool :=
  match isLab with
  | none => .ok true
  | some l =>
      match pyGet l (i : Int) with
      | some b => .ok b
      | none => .error "IndexError: is_label"

/-- One loop iteration of `dict_to_tokenized_src` given the already
looked-up `is_label` value: extend the token stream with the segment,
then either record a masked label or inline the revealed type string. -/
def buildStepCore (tkn : Tokenizer) (seg : String) (ty : PythonType)
    (tyStr : String) (info : AnnotInfo) (lab : Bool) (r : TokenizedSrc) :
    TokenizedSrc :=
  match lab with
  | true =>
    { r with
      types_pos := r.types_pos ++ [(r.tokenized_code ++ tkn.encode seg).length]
      types := r.types ++ [ty]
      types_tks := r.types_tks ++ [tkn.encode ty.show]
      types_str := r.types_str ++ [tyStr]
      types_info := r.types_info ++ [info]
      tokenized_code := (r.tokenized_code ++ tkn.encode seg) ++ [tkn.maskId] }
  | false =>
    { r with tokenized_code := (r.tokenized_code ++ tkn.encode seg) ++ tkn.encode tyStr }

/-- One loop iteration state of `dict_to_tokenized_src`. -/
def buildStep (tkn : Tokenizer) (isLab : Option (List Bool)) (i : Nat)
    (seg : String) (ty : PythonType) (tyStr : String) (info : AnnotInfo)
    (r : TokenizedSrc) : Except String TokenizedSrc := do
  let lab ← labOf isLab i
  pure (buildStepCore tkn seg ty tyStr info lab r)

/-- The `for i in range(len(types))` loop of `dict_to_tokenized_src`,
structurally recursing over the parallel label lists while consuming one
text segment per label. -/
def buildLoop (tkn : Tokenizer) (isLab : Option (List Bool)) :
    Nat → List String → List PythonType → List String → List AnnotInfo →
    TokenizedSrc → Except String (TokenizedSrc × List String)
  | _, segs, [], _, _, r => .ok (r, segs)
  | i, seg :: segs, ty :: tys, tyStr :: tyStrs, info :: infos, r => do
      let r' ← buildStep tkn isLab i seg ty tyStr info r
      buildLoop tkn isLab (i + 1) segs tys tyStrs infos r'
  | _, _, _ :: _, _, _, _ => .error "IndexError: parallel lists"

/-- `_TokenizedSrcHelper.dict_to_tokenized_src`: converts a masked-source
record into a `TokenizedSrc`.  The `assert len(segs) == len(types) + 1`
is the segment/label count check (the spec's `FormatError`). -/
def dict_to_tokenized_src (tkn : Tokenizer) (d : MaskedSrc) :
    Except String TokenizedSrc :=
  if d.code_segs.length = d.types.length + 1 then do
    let (r, restSegs) ←
      buildLoop tkn d.is_label 0 d.code_segs d.types d.types_str d.annots_info
        { file := d.file, repo := d.repo, origin_code := d.cst_code
          tokenized_code := [tkn.bosId], types := [], types_pos := []
          types_str := [], types_tks := [], types_info := [] }
    match restSegs.getLast? with
    | some lastSeg =>
        pure { r with
          tokenized_code := r.tokenized_code ++ tkn.encode lastSeg ++ [tkn.eosId] }
    | none => .error "IndexError: segs"
  else .error "FormatError: segment/label count mismatch"

/-! ### Invariants of the Tokenized Source Builder (claims C5, C7) -/

/-- The `TokenizedSrc` bookkeeping invariant: the five per-label lists are
parallel, positions strictly increase, and every recorded position points
at the single mask-marker token in the token stream. -/
def SrcInv (tkn : Tokenizer) (r : TokenizedSrc) : Prop :=
  r.types_pos.length = r.types.length ∧
  r.types_str.length = r.types.length ∧
  r.types_tks.length = r.types.length ∧
  r.types_info.length = r.types.length ∧
  r.types_pos.Pairwise (· < ·) ∧
  ∀ p ∈ r.types_pos,
    p < r.tokenized_code.length ∧ r.tokenized_code.getD p 0 = tkn.maskId

theorem buildStepCore_inv (tkn : Tokenizer) (seg : String) (ty : PythonType)
    (tyStr : String) (info : AnnotInfo) (lab : Bool) (r : TokenizedSrc)
    (h : SrcInv tkn r) : SrcInv tkn (buildStepCore tkn seg ty tyStr info lab r) := by
  obtain ⟨h1, h2, h3, h4, h5, h6⟩ := h
  cases lab with
  | false =>
    refine ⟨h1, h2, h3, h4, h5, ?_⟩
    intro p hp
    obtain ⟨hlt, hmask⟩ := h6 p hp
    have hlt' : p < (r.tokenized_code ++ tkn.encode seg).length := by
      simp only [List.length_append]; omega
    constructor
    · simp only [buildStepCore, List.length_append]
      omega
    · show ((r.tokenized_code ++ tkn.encode seg) ++ tkn.encode tyStr).getD p 0 = _
      rw [List.getD_append _ _ _ _ hlt', List.getD_append _ _ _ _ hlt]
      exact hmask
  | true =>
    refine ⟨?_, ?_, ?_, ?_, ?_, ?_⟩
    · show (r.types_pos ++ [(r.tokenized_code ++ tkn.encode seg).length]).length
        = (r.types ++ [ty]).length
      simp [h1]
    · show (r.types_str ++ [tyStr]).length = (r.types ++ [ty]).length
      simp [h2]
    · show (r.types_tks ++ [tkn.encode ty.show]).length = (r.types ++ [ty]).length
      simp [h3]
    · show (r.types_info ++ [info]).length = (r.types ++ [ty]).length
      simp [h4]
    · show (r.types_pos ++ [(r.tokenized_code ++ tkn.encode seg).length]).Pairwise (· < ·)
      rw [List.pairwise_append]
      refine ⟨h5, List.pairwise_singleton _ _, ?_⟩
      intro a ha b hb
      simp only [List.mem_singleton] at hb
      subst hb
      have := (h6 a ha).1
      simp only [List.length_append]
      omega
    · intro p hp
      replace hp : p ∈ r.types_pos ++ [(r.tokenized_code ++ tkn.encode seg).length] := hp
      rw [List.mem_append] at hp
      cases hp with
      | inl hp =>
        obtain ⟨hlt, hmask⟩ := h6 p hp
        have hlt2 : p < (r.tokenized_code ++ tkn.encode seg).length := by
          simp only [List.length_append]; omega
        constructor
        · show p < ((r.tokenized_code ++ tkn.encode seg) ++ [tkn.maskId]).length
          simp only [List.length_append]
          omega
        · show ((r.tokenized_code ++ tkn.encode seg) ++ [tkn.maskId]).getD p 0 = _
          rw [List.getD_append _ _ _ _ hlt2, List.getD_append _ _ _ _ hlt]
          exact hmask
      | inr hp =>
        simp only [List.mem_singleton] at hp
        subst hp
        constructor
        · show (r.tokenized_code ++ tkn.encode seg).length <
            ((r.tokenized_code ++ tkn.encode seg) ++ [tkn.maskId]).length
          simp only [List.length_append, List.length_cons, List.length_nil]
          omega
        · show ((r.tokenized_code ++ tkn.encode seg) ++ [tkn.maskId]).getD
            (r.tokenized_code ++ tkn.encode seg).length 0 = _
          rw [List.getD_append_right _ _ _ _ (Nat.le_refl _), Nat.sub_self]
          rfl

theorem buildLoop_inv (tkn : Tokenizer) (isLab : Option (List Bool)) :
    ∀ (tys : List PythonType) (i : Nat) (segs : List String)
      (tyStrs : List String) (infos : List AnnotInfo) (r r' : TokenizedSrc)
      (rest : List String),
      SrcInv tkn r →
      buildLoop tkn isLab i segs tys tyStrs infos r = .ok (r', rest) →
      SrcInv tkn r'
  | [], _, segs, tyStrs, infos, r, r', rest, hr, hloop => by
      simp only [buildLoop] at hloop
      cases hloop
      exact hr
  | ty :: tys, i, seg :: segs, tyStr :: tyStrs, info :: infos, r, r', rest,
      hr, hloop => by
      simp only [buildLoop, buildStep, bind, Except.bind] at hloop
      cases hlab : labOf isLab i with
      | error e => rw [hlab] at hloop; exact absurd hloop (by simp)
      | ok lab =>
        rw [hlab] at hloop
        simp only [pure, Except.pure] at hloop
        exact buildLoop_inv tkn isLab tys (i + 1) segs tyStrs infos _ r' rest
          (buildStepCore_inv tkn seg ty tyStr info lab r hr) hloop
  | _ :: _, _, [], _, _, _, _, _, _, hloop => by
      simp only [buildLoop] at hloop
      exact Except.noConfusion hloop
  | _ :: _, _, _ :: _, [], _, _, _, _, _, hloop => by
      simp only [buildLoop] at hloop
      exact Except.noConfusion hloop
  | _ :: _, _, _ :: _, _ :: _, [], _, _, _, _, hloop => by
      simp only [buildLoop] at hloop
      exact Except.noConfusion hloop

theorem SrcInv_init (tkn : Tokenizer) (d : MaskedSrc) : SrcInv tkn
    { file := d.file, repo := d.repo, origin_code := d.cst_code,
      tokenized_code := [tkn.bosId], types := [], types_pos := [],
      types_str := [], types_tks := [], types_info := [] } := by
  refine ⟨rfl, rfl, rfl, rfl, List.Pairwise.nil, ?_⟩
  intro p hp
  cases hp

theorem SrcInv_append_code (tkn : Tokenizer) (r : TokenizedSrc)
    (suffix : List Int) (h : SrcInv tkn r) :
    SrcInv tkn { r with tokenized_code := r.tokenized_code ++ suffix } := by
  obtain ⟨h1, h2, h3, h4, h5, h6⟩ := h
  refine ⟨h1, h2, h3, h4, h5, ?_⟩
  intro p hp
  obtain ⟨hlt, hmask⟩ := h6 p hp
  constructor
  · show p < (r.tokenized_code ++ suffix).length
    simp only [List.length_append]
    omega
  · show (r.tokenized_code ++ suffix).getD p 0 = _
    rw [List.getD_append _ _ _ _ hlt]
    exact hmask

/-- **C1-adjacent helper for C5.**  The builder loop, when it succeeds,
yields an invariant-satisfying record. -/
theorem dict_ok_inv (tkn : Tokenizer) (d : MaskedSrc) (r : TokenizedSrc)
    (h : dict_to_tokenized_src tkn d = .ok r) : SrcInv tkn r := by
  unfold dict_to_tokenized_src at h
  by_cases hc : d.code_segs.length = d.types.length + 1
  · rw [if_pos hc] at h
    cases hbl : buildLoop tkn d.is_label 0 d.code_segs d.types d.types_str
        d.annots_info
        { file := d.file, repo := d.repo, origin_code := d.cst_code,
          tokenized_code := [tkn.bosId], types := [], types_pos := [],
          types_str := [], types_tks := [], types_info := [] } with
    | error e =>
        rw [hbl] at h
        exact absurd h (by simp [bind, Except.bind])
    | ok pr =>
        obtain ⟨r1, rest⟩ := pr
        rw [hbl] at h
        simp only [bind, Except.bind] at h
        have hinv1 : SrcInv tkn r1 :=
          buildLoop_inv tkn d.is_label d.types 0 d.code_segs d.types_str
            d.annots_info _ r1 rest (SrcInv_init tkn d) hbl
        cases hgl : rest.getLast? with
        | none =>
            rw [hgl] at h
            exact absurd h (by simp)
        | some lastSeg =>
            rw [hgl] at h
            simp only [pure, Except.pure, Except.ok.injEq] at h
            subst h
            have := SrcInv_append_code tkn
              { r1 with tokenized_code := r1.tokenized_code ++ tkn.encode lastSeg }
              [tkn.eosId]
              (SrcInv_append_code tkn r1 (tkn.encode lastSeg) hinv1)
            simpa [List.append_assoc] using this
  · rw [if_neg hc] at h
    exact absurd h (by simp)

/-- **C5.**  Every `TokenizedSrc` produced by `dict_to_tokenized_src`
satisfies `len(types) == len(types_pos) == len(types_str) == len(types_tks)
== len(types_info)`, the entries of `types_pos` are strictly increasing
positions into `tokenized_code`, and each such position holds the single
mask-marker token standing in for that label. -/
theorem C5_tokenized_src_invariant (tkn : Tokenizer) (d : MaskedSrc)
    (r : TokenizedSrc) (h : dict_to_tokenized_src tkn d = .ok r) :
    (r.types.length = r.types_pos.length ∧
     r.types.length = r.types_str.length ∧
     r.types.length = r.types_tks.length ∧
     r.types.length = r.types_info.length) ∧
    r.types_pos.Pairwise (· < ·) ∧
    ∀ p ∈ r.types_pos,
      p < r.tokenized_code.length ∧ r.tokenized_code.getD p 0 = tkn.maskId := by
  obtain ⟨h1, h2, h3, h4, h5, h6⟩ := dict_ok_inv tkn d r h
  exact ⟨⟨h1.symm, h2.symm, h3.symm, h4.symm⟩, h5, h6⟩

theorem buildLoop_ok (tkn : Tokenizer) (isLab : Option (List Bool)) :
    ∀ (tys : List PythonType) (i : Nat) (segs : List String)
      (tyStrs : List String) (infos : List AnnotInfo) (r : TokenizedSrc),
      tys.length ≤ segs.length → tyStrs.length = tys.length →
      infos.length = tys.length →
      (∀ l, isLab = some l → i + tys.length ≤ l.length) →
      ∃ r' rest, buildLoop tkn isLab i segs tys tyStrs infos r = .ok (r', rest) ∧
        rest.length = segs.length - tys.length
  | [], i, segs, tyStrs, infos, r, _, _, _, _ =>
      ⟨r, segs, by simp [buildLoop], by simp⟩
  | ty :: tys, i, segs, tyStrs, infos, r, hseg, hstr, hinfo, hlab => by
      cases segs with
      | nil => simp at hseg
      | cons seg segs =>
        cases tyStrs with
        | nil => simp at hstr
        | cons tyStr tyStrs =>
          cases infos with
          | nil => simp at hinfo
          | cons info infos =>
            have hlabStep : ∃ b, labOf isLab i = .ok b := by
              cases isLab with
              | none => exact ⟨true, rfl⟩
              | some l =>
                have hi : i < l.length := by
                  have := hlab l rfl
                  simp only [List.length_cons] at this
                  omega
                obtain ⟨v, hv⟩ := pyGet_isSome l (i : Int) (by omega)
                  (by exact_mod_cast hi)
                exact ⟨v, by simp [labOf, hv]⟩
            obtain ⟨b, hb⟩ := hlabStep
            have hrec := buildLoop_ok tkn isLab tys (i + 1) segs tyStrs infos
              (buildStepCore tkn seg ty tyStr info b r)
              (by simpa using Nat.le_of_succ_le_succ (by simpa using hseg))
              (by simpa using hstr) (by simpa using hinfo)
              (fun l hl => by have := hlab l hl; simp at this ⊢; omega)
            obtain ⟨r', rest, hloop, hlen⟩ := hrec
            refine ⟨r', rest, ?_, by simpa using hlen⟩
            simp only [buildLoop, buildStep, bind, Except.bind, hb, pure,
              Except.pure]
            exact hloop

/-- **C7.**  `dict_to_tokenized_src` fails with the segment/label count
check (the spec's `FormatError`) exactly when the number of text segments
differs from the number of labels plus one; when the counts line up (and
the parallel metadata lists are well-formed, as every caller guarantees),
the failure branch is unreachable and a `TokenizedSrc` is returned. -/
theorem C7_format_error_iff_count_mismatch (tkn : Tokenizer) (d : MaskedSrc)
    (hstr : d.types_str.length = d.types.length)
    (hinfo : d.annots_info.length = d.types.length)
    (hlab : ∀ l, d.is_label = some l → d.types.length ≤ l.length) :
    (d.code_segs.length ≠ d.types.length + 1 →
      dict_to_tokenized_src tkn d =
        .error "FormatError: segment/label count mismatch") ∧
    (d.code_segs.length = d.types.length + 1 →
      ∃ r, dict_to_tokenized_src tkn d = .ok r) := by
  constructor
  · intro hne
    unfold dict_to_tokenized_src
    rw [if_neg hne]
  · intro hc
    obtain ⟨r', rest, hloop, hlen⟩ := buildLoop_ok tkn d.is_label d.types 0
      d.code_segs d.types_str d.annots_info
      { file := d.file, repo := d.repo, origin_code := d.cst_code,
        tokenized_code := [tkn.bosId], types := [], types_pos := [],
        types_str := [], types_tks := [], types_info := [] }
      (by omega) hstr hinfo (fun l hl => by simpa using hlab l hl)
    have hrest1 : rest.length = 1 := by omega
    obtain ⟨x, hx⟩ := List.length_eq_one.mp hrest1
    have hres : dict_to_tokenized_src tkn d = .ok
        { r' with tokenized_code :=
            r'.tokenized_code ++ tkn.encode x ++ [tkn.eosId] } := by
      unfold dict_to_tokenized_src
      rw [if_pos hc]
      simp only [bind, Except.bind, hloop, hx, List.getLast?_singleton, pure,
        Except.pure]
    exact ⟨_, hres⟩

/-! ### Concrete instances used by the witnesses -/

/-- A concrete hundred-slot marker list: ids `1000..1099`. -/
def markerIds0 : List Int :=
  (List.range 100).map (fun i : Nat => (1000 : Int) + (i : Int))

/-- A concrete tokenizer: characters are shifted past the reserved ids
(`0..3`), the hundred marker slots are `markerIds0`. -/
def tok0 : Tokenizer where
  bosId := 1
  eosId := 2
  maskId := 3
  padId := 0
  addSpecialIds := markerIds0
  encode := fun s => s.toList.map (fun c => (c.toNat : Int) + 256)
  decode := fun _ => ""

def w5src : MaskedSrc where
  file := "f.py"
  repo := "r"
  cst_code := "a int"
  code_segs := ["a", ""]
  types := [.Named "int"]
  types_str := ["int"]
  annots_info := [{ path := "p" }]
  is_label := none

def w5res : TokenizedSrc where
  file := "f.py"
  repo := "r"
  types := [.Named "int"]
  types_pos := [2]
  types_str := ["int"]
  types_tks := [[361, 366, 372]]
  types_info := [{ path := "p" }]
  origin_code := "a int"
  tokenized_code := [1, 353, 3, 2]

/-- Witness for C5 at a concrete masked source. -/
theorem C5_witness :
    ((w5res.types.length = w5res.types_pos.length ∧
      w5res.types.length = w5res.types_str.length ∧
      w5res.types.length = w5res.types_tks.length ∧
      w5res.types.length = w5res.types_info.length) ∧
     w5res.types_pos.Pairwise (· < ·) ∧
     ∀ p ∈ w5res.types_pos,
       p < w5res.tokenized_code.length ∧
       w5res.tokenized_code.getD p 0 = tok0.maskId) :=
  C5_tokenized_src_invariant tok0 w5src w5res (by rfl)

/-- Witness for C7 at a concrete masked source. -/
theorem C7_witness :
    (w5src.code_segs.length ≠ w5src.types.length + 1 →
      dict_to_tokenized_src tok0 w5src =
        .error "FormatError: segment/label count mismatch") ∧
    (w5src.code_segs.length = w5src.types.length + 1 →
      ∃ r, dict_to_tokenized_src tok0 w5src = .ok r) :=
  C7_format_error_iff_count_mismatch tok0 w5src (by rfl) (by rfl)
    (fun l hl => nomatch hl)

/-! ## Output decoding (`output_ids_as_seqs` / `output_ids_as_types`, claim C2)

`output_ids_as_seqs` walks the model output, splitting on the *expected*
next marker (`additional_special_tokens_ids[99 - seq_id]`, a Python
indexing expression, hence `pyGet`). -/

/-- One iteration of the `for tk in output_ids` loop of
`output_ids_as_seqs`.  State: `seqId` (count of markers matched so far),
the current expected marker `mark`, the current buffer and the collected
sequences. -/
def oiasStep (markerIds : List Int)
    (st : Nat × Int × List Int × List (List Int)) (tk : Int) :
    Except String (Nat × Int × List Int × List (List Int)) :=
  let (seqId, mark, buff, seqs) := st
  if tk ≤ 0 then .ok (seqId, mark, buff, seqs)
  else if tk ≠ mark then .ok (seqId, mark, buff ++ [tk], seqs)
  else
    match pyGet markerIds (99 - ((seqId + 1 : Nat) : Int)) with
    | none => .error "IndexError: additional_special_tokens_ids"
    | some mark' => .ok (seqId + 1, mark', [], seqs ++ [buff])

/-- `output_ids_as_seqs`: divide the model output into marker-delimited
sub-sequences, skipping non-positive (pad/masked) ids; the leading
pre-marker segment (`seqs[1:]` in the source, since the trailing buffer is
appended first) is dropped. -/
def output_ids_as_seqs (markerIds : List Int) (output_ids : List Int) :
    Except String (List (List Int)) := do
  match pyGet markerIds 99 with
  | none => .error "IndexError: additional_special_tokens_ids"
  | some mark0 => do
      let (_, _, buff, seqs) ←
        output_ids.foldlM (oiasStep markerIds)
          ((0 : Nat), mark0, ([] : List Int), ([] : List (List Int)))
      pure ((seqs ++ [buff]).drop 1)

/-- `output_ids_as_types`: decode each of the first `n_types`
marker-delimited sub-sequences as a type expression (`parse` is the
`ast.parse`/`parse_type_from_ast` collaborator), substituting `Any` on
parse failure, and right-pad with `Any` to exactly `n_types` entries. -/
def output_ids_as_types (markerIds : List Int) (dec : List Int → String)
    (parse : String → Option PythonType) (output_ids : List Int)
    (n_types : Nat) : Except String (List PythonType) := do
  let seqs ← output_ids_as_seqs markerIds output_ids
  let types := (seqs.take n_types).map
    (fun seq => (parse (dec seq)).getD PythonType.Any)
  pure (types ++ List.replicate (n_types - types.length) PythonType.Any)

/-- Ghost counter over the same loop: how many tokens of the output match
the expected marker-splitting sequence.  State: matches so far, current
expected marker, and whether the splitter is still alive (the real loop
raises at the match whose successor lookup over-runs; counting stops
there). -/
def matchStep (markerIds : List Int) (st : Nat × Int × Bool) (tk : Int) :
    Nat × Int × Bool :=
  let (s, mark, alive) := st
  if alive = false then st
  else if tk ≤ 0 then st
  else if tk ≠ mark then st
  else
    match pyGet markerIds (99 - ((s + 1 : Nat) : Int)) with
    | none => (s + 1, mark, false)
    | some mark' => (s + 1, mark', true)

/-- The number of tokens of `output_ids` that match the expected
marker-splitting sequence of `output_ids_as_seqs`. -/
def matchCount (markerIds : List Int) (output_ids : List Int) : Nat :=
  match pyGet markerIds 99 with
  | none => 0
  | some m0 => (output_ids.foldl (matchStep markerIds) (0, m0, true)).1

/-- An adversarial model output: the full descending marker sequence
`ids[99], ids[98], …, ids[0]` (for `tok0` these are `1099 … 1000`)
repeated twice.  After the 200th matched marker the splitter computes
`additional_special_tokens_ids[99 - 200]`, i.e. Python index `-101` into a
100-element list — an `IndexError`. -/
def C2badIds : List Int :=
  (List.range 100).map (fun i => (1099 : Int) - i) ++
    (List.range 100).map (fun i => (1099 : Int) - i)

set_option maxRecDepth 40000 in
set_option maxHeartbeats 1000000 in
/-- **C2 counterexample.**  `output_ids_as_types` *can* raise: on an input
containing 200 in-order marker tokens it fails with an `IndexError`
(Python negative indexing wraps once, then over-runs), so "never raises"
is false as stated. -/
theorem C2_counterexample :
    output_ids_as_types tok0.addSpecialIds tok0.decode (fun _ => none)
      C2badIds 1 =
      .error "IndexError: additional_special_tokens_ids" := by
  rfl

theorem matchFold_dead (markerIds : List Int) :
    ∀ (l : List Int) (s : Nat) (m : Int),
      l.foldl (matchStep markerIds) (s, m, false) = (s, m, false)
  | [], _, _ => rfl
  | tk :: rest, s, m => by
      rw [List.foldl_cons]
      have hms : matchStep markerIds (s, m, false) tk = (s, m, false) := by
        simp [matchStep]
      rw [hms]
      exact matchFold_dead markerIds rest s m

theorem matchStep_fst_le (markerIds : List Int)
    (st : Nat × Int × Bool) (tk : Int) :
    (matchStep markerIds st tk).1 ≤ st.1 + 1 := by
  obtain ⟨s, m, a⟩ := st
  cases a
  · simp [matchStep]
  · by_cases h0 : tk ≤ 0
    · simp [matchStep, h0]
    · by_cases hne : tk ≠ m
      · simp [matchStep, h0, hne]
      · cases hm : pyGet markerIds (99 - ((s + 1 : Nat) : Int)) with
        | none =>
            simp only [matchStep]
            rw [if_neg (fun h => Bool.noConfusion h), if_neg h0, if_neg hne,
              hm]
        | some m' =>
            simp only [matchStep]
            rw [if_neg (fun h => Bool.noConfusion h), if_neg h0, if_neg hne,
              hm]

theorem matchFold_le (markerIds : List Int) :
    ∀ (l : List Int) (st : Nat × Int × Bool),
      (l.foldl (matchStep markerIds) st).1 ≤ st.1 + l.length
  | [], st => by simp
  | tk :: rest, st => by
      rw [List.foldl_cons, List.length_cons]
      have h1 := matchStep_fst_le markerIds st tk
      have h2 := matchFold_le markerIds rest (matchStep markerIds st tk)
      omega

/-- Every output has at most as many matched markers as tokens: an output
of fewer than 200 tokens in particular has fewer than 200 matches. -/
theorem matchCount_le_length (markerIds : List Int)
    (output_ids : List Int) :
    matchCount markerIds output_ids ≤ output_ids.length := by
  unfold matchCount
  cases hm : pyGet markerIds 99
  · simp
  · simpa using matchFold_le markerIds output_ids (0, _, true)

theorem oiasFold_ok (markerIds : List Int) (h100 : markerIds.length = 100) :
    ∀ (l : List Int) (s : Nat) (mark : Int) (buff : List Int)
      (seqs : List (List Int)),
      (l.foldl (matchStep markerIds) (s, mark, true)).1 ≤ 199 →
      ∃ out, l.foldlM (oiasStep markerIds) (s, mark, buff, seqs) = .ok out
  | [], s, mark, buff, seqs, _ => ⟨(s, mark, buff, seqs), rfl⟩
  | tk :: rest, s, mark, buff, seqs, hmc => by
      rw [List.foldl_cons] at hmc
      by_cases h0 : tk ≤ 0
      · have hms : matchStep markerIds (s, mark, true) tk =
            (s, mark, true) := by simp [matchStep, h0]
        rw [hms] at hmc
        obtain ⟨out, hout⟩ :=
          oiasFold_ok markerIds h100 rest s mark buff seqs hmc
        refine ⟨out, ?_⟩
        rw [List.foldlM_cons]
        have hstep : oiasStep markerIds (s, mark, buff, seqs) tk =
            .ok (s, mark, buff, seqs) := by simp [oiasStep, h0]
        rw [hstep]
        exact hout
      · by_cases hne : tk ≠ mark
        · have hms : matchStep markerIds (s, mark, true) tk =
              (s, mark, true) := by simp [matchStep, h0, hne]
          rw [hms] at hmc
          obtain ⟨out, hout⟩ :=
            oiasFold_ok markerIds h100 rest s mark (buff ++ [tk]) seqs hmc
          refine ⟨out, ?_⟩
          rw [List.foldlM_cons]
          have hstep : oiasStep markerIds (s, mark, buff, seqs) tk =
              .ok (s, mark, buff ++ [tk], seqs) := by
            simp [oiasStep, h0, hne]
          rw [hstep]
          exact hout
        · cases hm : pyGet markerIds (99 - ((s + 1 : Nat) : Int)) with
          | none =>
              exfalso
              have hms : matchStep markerIds (s, mark, true) tk =
                  (s + 1, mark, false) := by
                simp only [matchStep]
                rw [if_neg (fun h => Bool.noConfusion h), if_neg h0,
                  if_neg hne, hm]
              rw [hms, matchFold_dead] at hmc
              have hs : s + 1 ≤ 199 := hmc
              obtain ⟨m', hm'⟩ := pyGet_isSome markerIds
                (99 - ((s + 1 : Nat) : Int))
                (by rw [h100]; push_cast; omega)
                (by rw [h100]; push_cast; omega)
              rw [hm] at hm'
              exact Option.noConfusion hm'
          | some m' =>
              have hms : matchStep markerIds (s, mark, true) tk =
                  (s + 1, m', true) := by
                simp only [matchStep]
                rw [if_neg (fun h => Bool.noConfusion h), if_neg h0,
                  if_neg hne, hm]
              rw [hms] at hmc
              obtain ⟨out, hout⟩ := oiasFold_ok markerIds h100 rest (s + 1)
                m' [] (seqs ++ [buff]) hmc
              refine ⟨out, ?_⟩
              rw [List.foldlM_cons]
              have hstep : oiasStep markerIds (s, mark, buff, seqs) tk =
                  .ok (s + 1, m', [], seqs ++ [buff]) := by
                simp only [oiasStep, if_neg h0, if_neg hne, hm]
              rw [hstep]
              exact hout

theorem padded_types_spec (f : List Int → PythonType)
    (seqs : List (List Int)) (n : Nat) :
    ((seqs.take n).map f ++
      List.replicate (n - ((seqs.take n).map f).length) PythonType.Any).length
        = n ∧
    (∀ i, i < min n seqs.length →
      ((seqs.take n).map f ++
        List.replicate (n - ((seqs.take n).map f).length)
          PythonType.Any).getD i PythonType.Any = f (seqs.getD i [])) ∧
    (∀ i, seqs.length ≤ i → i < n →
      ((seqs.take n).map f ++
        List.replicate (n - ((seqs.take n).map f).length)
          PythonType.Any).getD i PythonType.Any = PythonType.Any) := by
  have hA : ((seqs.take n).map f).length = min n seqs.length := by simp
  refine ⟨?_, ?_, ?_⟩
  · simp only [List.length_append, List.length_replicate, hA]
    omega
  · intro i hi
    have hiA : i < ((seqs.take n).map f).length := by omega
    rw [List.getD_append _ _ _ _ hiA]
    have hi2 : i < seqs.length := by omega
    rw [List.getD_eq_getElem _ _ hiA, List.getD_eq_getElem _ _ hi2]
    rw [List.getElem_map, List.getElem_take]
  · intro i hge hn
    have hiA : ((seqs.take n).map f).length ≤ i := by omega
    rw [List.getD_append_right _ _ _ _ hiA]
    have hrep : i - ((seqs.take n).map f).length <
        (List.replicate (n - ((seqs.take n).map f).length)
          PythonType.Any).length := by
      simp only [List.length_replicate]
      omega
    rw [List.getD_eq_getElem _ _ hrep, List.getElem_replicate]

/-- **C2 (amended).**  Provided fewer than 200 tokens of the output match
the expected marker-splitting sequence (`matchCount ≤ 199`; by
`matchCount_le_length` this in particular covers every output of fewer
than 200 tokens), decoding never raises and returns exactly `n_types`
types: each marker-delimited sub-sequence is parsed (with `Any`
substituted when `parse` fails), missing entries are right-padded with
`Any`, and entries beyond `n_types` are truncated. -/
theorem C2_decode_total_and_padded (markerIds : List Int)
    (dec : List Int → String) (parse : String → Option PythonType)
    (output_ids : List Int) (n_types : Nat)
    (h100 : markerIds.length = 100)
    (hmatch : matchCount markerIds output_ids ≤ 199) :
    ∃ (seqs : List (List Int)) (ts : List PythonType),
      output_ids_as_seqs markerIds output_ids = .ok seqs ∧
      output_ids_as_types markerIds dec parse output_ids n_types = .ok ts ∧
      ts.length = n_types ∧
      (∀ i, i < min n_types seqs.length →
        ts.getD i PythonType.Any =
          (parse (dec (seqs.getD i []))).getD PythonType.Any) ∧
      (∀ i, seqs.length ≤ i → i < n_types →
        ts.getD i PythonType.Any = PythonType.Any) := by
  obtain ⟨m0, hm0⟩ := pyGet_isSome markerIds 99 (by rw [h100]; omega)
    (by rw [h100]; omega)
  have hmc : (output_ids.foldl (matchStep markerIds) (0, m0, true)).1 ≤
      199 := by
    unfold matchCount at hmatch
    rw [hm0] at hmatch
    exact hmatch
  obtain ⟨⟨sid, mk, buff, seqs0⟩, hloop⟩ := oiasFold_ok markerIds h100
    output_ids 0 m0 [] [] hmc
  have hseqs : output_ids_as_seqs markerIds output_ids =
      .ok ((seqs0 ++ [buff]).drop 1) := by
    unfold output_ids_as_seqs
    rw [hm0]
    simp only [bind, Except.bind, hloop, pure, Except.pure]
  have htypes : output_ids_as_types markerIds dec parse output_ids n_types =
      .ok ((((seqs0 ++ [buff]).drop 1).take n_types).map
            (fun seq => (parse (dec seq)).getD PythonType.Any) ++
          List.replicate (n_types -
            ((((seqs0 ++ [buff]).drop 1).take n_types).map
              (fun seq => (parse (dec seq)).getD PythonType.Any)).length)
            PythonType.Any) := by
    unfold output_ids_as_types
    simp only [bind, Except.bind, hseqs, pure, Except.pure]
  obtain ⟨hL, h2, h3⟩ := padded_types_spec
    (fun seq => (parse (dec seq)).getD PythonType.Any)
    ((seqs0 ++ [buff]).drop 1) n_types
  exact ⟨(seqs0 ++ [buff]).drop 1, _, hseqs, htypes, hL, h2, h3⟩

/-- Witness for the amended C2 at a concrete model output. -/
theorem C2_witness :
    ∃ (seqs : List (List Int)) (ts : List PythonType),
      output_ids_as_seqs tok0.addSpecialIds [1099, 5, 6] = .ok seqs ∧
      output_ids_as_types tok0.addSpecialIds tok0.decode (fun _ => none)
        [1099, 5, 6] 2 = .ok ts ∧
      ts.length = 2 ∧
      (∀ i, i < min 2 seqs.length →
        ts.getD i PythonType.Any =
          ((fun _ => (none : Option PythonType))
            (tok0.decode (seqs.getD i []))).getD PythonType.Any) ∧
      (∀ i, seqs.length ≤ i → i < 2 →
        ts.getD i PythonType.Any = PythonType.Any) :=
  C2_decode_total_and_padded tok0.addSpecialIds tok0.decode (fun _ => none)
    [1099, 5, 6] 2 (by rfl) (by decide)

/-! ## Chunker (`chunk_srcs` / `_ChunkingHelper.process_chunk`, claims C1, C6)

During concatenation each masked label position is overwritten with a
structured tuple `(type, annot_info, type_subtokens, src_id)`; a token of
the mixed stream is either a plain id or such a tuple. -/

structure LabelTuple where
  ty : PythonType
  info : AnnotInfo
  tks : List Int
  src_id : Nat
deriving DecidableEq, Repr

inductive MTok where
  | tok : Int → MTok
  | lab : LabelTuple → MTok
deriving DecidableEq, Repr

instance : Inhabited MTok := ⟨.tok 0⟩

/-- `CtxArgs` from `spot/data.py`. -/
structure CtxArgs where
  ctx_size : Nat
  left_margin : Nat
  right_margin : Nat
  types_in_ctx : Bool := false
deriving Repr

def CtxArgs.window_size (c : CtxArgs) : Nat :=
  c.ctx_size - c.left_margin - c.right_margin

structure SrcChunkInfo where
  types : List PythonType
  annots_info : List AnnotInfo
  src_ids : List Nat
deriving DecidableEq, Repr

structure ChunkOutput where
  input_ids : List Int
  labels : List Int
  meta : SrcChunkInfo
deriving DecidableEq, Repr

/-- `expand_types_as_tks` (inner function of `process_chunk`): context
tokens keep their id, label tuples are expanded to their true sub-tokens
when `types_in_ctx`, else collapsed to the mask token. -/
def expand_types_as_tks (typesInCtx : Bool) (maskId : Int)
    (mixed : List MTok) : List Int :=
  mixed.flatMap fun e =>
    match e with
    | .tok i => [i]
    | .lab t => if typesInCtx then t.tks else [maskId]

/-- Python slice `l[-n:]` (note `l[-0:]` is the whole list). -/
def pySliceLast {α : Type} (n : Nat) (l : List α) : List α :=
  if n = 0 then l else l.drop (l.length - n)

/-- One iteration of the central-window scan of `process_chunk`:
a plain token is kept; a label tuple is replaced by the next marker
(`additional_special_tokens_ids[99 - extra_id]`) after the
`assert extra_id <= 99` budget check, and its payload is collected. -/
def scanStep (markerIds : List Int)
    (st : Nat × List Int × List LabelTuple) (tk : MTok) :
    Except String (Nat × List Int × List LabelTuple) :=
  let (extraId, middle, labs) := st
  match tk with
  | .tok i => .ok (extraId, middle ++ [i], labs)
  | .lab t =>
      if extraId ≤ 99 then
        match pyGet markerIds ((99 : Int) - (extraId : Int)) with
        | none => .error "IndexError: additional_special_tokens_ids"
        | some m => .ok (extraId + 1, middle ++ [m], labs ++ [t])
      else .error "> 99 annotations in a single sequence"

/-- One iteration of the label-sequence construction
(`label_ids.append(tokenizer.additional_special_tokens_ids[99 - i])`
followed by the type's sub-tokens). -/
def labelStep (markerIds : List Int) (st : Nat × List Int) (tks : List Int) :
    Except String (Nat × List Int) :=
  let (i, acc) := st
  match pyGet markerIds ((99 : Int) - (i : Int)) with
  | none => .error "IndexError: additional_special_tokens_ids"
  | some m => .ok (i + 1, acc ++ [m] ++ tks)

/-- The candidate chunk padded to `ctx_size` with the pad token
(`[pad] * (chunk_size - len(tks))`, empty when already full). -/
def paddedChunk (padId : Int) (ctx : Nat) (tks0 : List MTok) : List MTok :=
  tks0 ++ List.replicate (ctx - tks0.length) (MTok.tok padId)

/-- The central window of a candidate chunk:
`tks[left_margin : left_margin + window_size]`. -/
def windowOf (args : CtxArgs) (padId : Int) (tks0 : List MTok) : List MTok :=
  ((paddedChunk padId args.ctx_size tks0).drop args.left_margin).take
    args.window_size

def isLabTok : MTok → Bool
  | .lab _ => true
  | .tok _ => false

/-- Number of label tuples that land in the central window of a candidate
chunk. -/
def windowLabels (args : CtxArgs) (padId : Int) (tks0 : List MTok) : Nat :=
  (windowOf args padId tks0).countP isLabTok

/-- The label payloads of a mixed token list, in order. -/
def labsOf (w : List MTok) : List LabelTuple :=
  w.filterMap fun e =>
    match e with
    | .lab t => some t
    | .tok _ => none

/-- `_ChunkingHelper.process_chunk`: pad, scan the central window
(assigning markers from slot 99 downward), drop the chunk when no label is
found, then assemble margins and the marker-delimited label sequence.
The source's `assert`/`assert_eq` checks are `.error` outcomes. -/
def process_chunk (tkn : Tokenizer) (args : CtxArgs) (tks0 : List MTok) :
    Except String (Option ChunkOutput) := do
  let tks := paddedChunk tkn.padId args.ctx_size tks0
  let (extraId, middle, labs) ←
    (windowOf args tkn.padId tks0).foldlM (scanStep tkn.addSpecialIds)
      ((0 : Nat), ([] : List Int), ([] : List LabelTuple))
  if extraId = 0 then
    pure none
  else
    let left_ctx := pySliceLast args.left_margin
      (expand_types_as_tks args.types_in_ctx tkn.maskId
        (tks.take args.left_margin))
    if left_ctx.length = args.left_margin then
      let right_ctx := (expand_types_as_tks args.types_in_ctx tkn.maskId
        (pySliceLast args.right_margin tks)).take args.right_margin
      if right_ctx.length = args.right_margin then
        let input_ids := left_ctx ++ middle ++ right_ctx
        if input_ids.length = args.ctx_size then
          let (_, body) ←
            (labs.map LabelTuple.tks).foldlM (labelStep tkn.addSpecialIds)
              ((0 : Nat), ([] : List Int))
          pure (some
            { input_ids := input_ids
              labels := [tkn.bosId] ++ body ++ [tkn.eosId]
              meta :=
                { types := labs.map LabelTuple.ty
                  annots_info := labs.map LabelTuple.info
                  src_ids := labs.map LabelTuple.src_id } })
        else .error "assert_eq failed: len(input_ids) != chunk_size"
      else .error "assert_eq failed: len(right_ctx) != right_margin"
    else .error "assert_eq failed: len(left_ctx) != left_margin"

/-- The concatenation pass of `chunk_srcs`: append each source's token
stream, then overwrite each label position with its structured tuple.
(Python raises on an out-of-range position; `List.set` is a no-op there —
positions produced by the builder are always in range, see C5.) -/
def concat_srcs (srcs : List TokenizedSrc) : List MTok :=
  srcs.enum.foldl
    (fun acc p =>
      let offset := acc.length
      (List.range p.2.types.length).foldl
        (fun l i =>
          l.set (offset + p.2.types_pos.getD i 0)
            (MTok.lab
              { ty := p.2.types.getD i PythonType.Any
                info := p.2.types_info.getD i default
                tks := p.2.types_tks.getD i []
                src_id := p.1 }))
        (acc ++ p.2.tokenized_code.map MTok.tok))
    []

/-- The sliding-window pass of `chunk_srcs`:
`[all_tks[i : i + ctx_size] for i in range(0, len(all_tks), stride)]`
(`stride` is positive in every valid configuration; `range` with a zero
step would be a Python `ValueError`). -/
def chunk_candidates (all_tks : List MTok) (ctx stride : Nat) :
    List (List MTok) :=
  (List.range ((all_tks.length + stride - 1) / stride)).map
    (fun i => (all_tks.drop (i * stride)).take ctx)

/-- `chunk_srcs`: concatenate, slide (step = `ctx_args.window_size`),
process each candidate in parallel, and keep the non-`None` chunks with
their candidate index as `chunk_id`. -/
def chunk_srcs (tkn : Tokenizer) (args : CtxArgs) (srcs : List TokenizedSrc) :
    Except String (List (Nat × ChunkOutput)) := do
  let cands := chunk_candidates (concat_srcs srcs) args.ctx_size
    args.window_size
  let outs ← cands.mapM (process_chunk tkn args)
  pure (outs.enum.filterMap (fun p => p.2.map (fun c => (p.1, c))))

/-! ### The central-window scan (claim C1) -/

theorem getD_mem {α : Type} (l : List α) (i : Nat) (d : α) (h : i < l.length) :
    l.getD i d ∈ l := by
  rw [List.getD_eq_getElem _ _ h]
  exact List.getElem_mem h

theorem scan_spec (markerIds : List Int) (h100 : markerIds.length = 100) :
    ∀ (w : List MTok) (extraId : Nat) (middle : List Int)
      (labs : List LabelTuple),
      extraId + w.countP isLabTok ≤ 100 →
      ∃ middle',
        w.foldlM (scanStep markerIds) (extraId, middle, labs) =
          .ok (extraId + w.countP isLabTok, middle', labs ++ labsOf w) ∧
        middle'.length = middle.length + w.length ∧
        ((∀ t, MTok.tok t ∈ w → t ∉ markerIds) →
          middle'.filter (fun x => decide (x ∈ markerIds)) =
            middle.filter (fun x => decide (x ∈ markerIds)) ++
            (List.range (w.countP isLabTok)).map
              (fun j => markerIds.getD (99 - (extraId + j)) 0))
  | [], extraId, middle, labs, _ => by
      refine ⟨middle, ?_, by simp, ?_⟩
      · simp [labsOf, pure, Except.pure]
      · intro _
        simp
  | .tok i :: rest, extraId, middle, labs, hbound => by
      have hbound' : extraId + rest.countP isLabTok ≤ 100 := by
        simp only [List.countP_cons, isLabTok] at hbound
        omega
      obtain ⟨middle', h1, h2, h3⟩ := scan_spec markerIds h100 rest extraId
        (middle ++ [i]) labs hbound'
      refine ⟨middle', ?_, ?_, ?_⟩
      · rw [List.foldlM_cons]
        have hstep : scanStep markerIds (extraId, middle, labs) (.tok i) =
            .ok (extraId, middle ++ [i], labs) := rfl
        rw [hstep]
        show rest.foldlM (scanStep markerIds) (extraId, middle ++ [i], labs) = _
        rw [h1]
        have hcnt : (MTok.tok i :: rest).countP isLabTok =
            rest.countP isLabTok := by
          simp [List.countP_cons, isLabTok]
        rw [hcnt]
        have hlabs : labsOf (MTok.tok i :: rest) = labsOf rest := by
          simp [labsOf]
        rw [hlabs]
      · simp only [List.length_append, List.length_cons, List.length_nil]
          at h2 ⊢
        omega
      · intro hplain
        have hi : i ∉ markerIds := hplain i (List.mem_cons_self _ _)
        have hrest : ∀ t, MTok.tok t ∈ rest → t ∉ markerIds := fun t ht =>
          hplain t (List.mem_cons_of_mem _ ht)
        have := h3 hrest
        rw [this]
        have hfi : (middle ++ [i]).filter (fun x => decide (x ∈ markerIds)) =
            middle.filter (fun x => decide (x ∈ markerIds)) := by
          rw [List.filter_append]
          simp [hi]
        rw [hfi]
        have hcnt : (MTok.tok i :: rest).countP isLabTok =
            rest.countP isLabTok := by
          simp [List.countP_cons, isLabTok]
        rw [hcnt]
  | .lab t :: rest, extraId, middle, labs, hbound => by
      have hcnt : (MTok.lab t :: rest).countP isLabTok =
          rest.countP isLabTok + 1 := by
        simp [List.countP_cons, isLabTok]
      have hle : extraId ≤ 99 := by
        rw [hcnt] at hbound
        omega
      have hbound' : (extraId + 1) + rest.countP isLabTok ≤ 100 := by
        rw [hcnt] at hbound
        omega
      have hidx : (99 : Nat) - extraId < markerIds.length := by
        rw [h100]
        omega
      have hm : pyGet markerIds ((99 : Int) - (extraId : Int)) =
          some (markerIds.getD (99 - extraId) 0) := by
        have h0 : (0 : Int) ≤ (99 : Int) - (extraId : Int) := by omega
        have hlt : (99 : Int) - (extraId : Int) < markerIds.length := by
          rw [h100]
          omega
        rw [pyGet_eq_getD markerIds _ h0 hlt]
        have htn : ((99 : Int) - (extraId : Int)).toNat = 99 - extraId := by
          omega
        rw [htn]
        rfl
      obtain ⟨middle', h1, h2, h3⟩ := scan_spec markerIds h100 rest
        (extraId + 1) (middle ++ [markerIds.getD (99 - extraId) 0])
        (labs ++ [t]) hbound'
      refine ⟨middle', ?_, ?_, ?_⟩
      · rw [List.foldlM_cons]
        have hstep : scanStep markerIds (extraId, middle, labs) (.lab t) =
            .ok (extraId + 1,
              middle ++ [markerIds.getD (99 - extraId) 0], labs ++ [t]) := by
          simp only [scanStep, if_pos hle, hm]
        rw [hstep]
        show rest.foldlM (scanStep markerIds) _ = _
        rw [h1, hcnt]
        have hlabs : labsOf (MTok.lab t :: rest) = t :: labsOf rest := by
          simp [labsOf]
        rw [hlabs]
        have heid : extraId + 1 + rest.countP isLabTok =
            extraId + (rest.countP isLabTok + 1) := by omega
        rw [heid, List.append_cons, List.append_assoc]
        simp
      · simp only [List.length_append, List.length_cons, List.length_nil]
          at h2 ⊢
        omega
      · intro hplain
        have hrest : ∀ x, MTok.tok x ∈ rest → x ∉ markerIds := fun x hx =>
          hplain x (List.mem_cons_of_mem _ hx)
        have := h3 hrest
        rw [this]
        have hmem : markerIds.getD (99 - extraId) 0 ∈ markerIds :=
          getD_mem markerIds _ 0 hidx
        have hfm : (middle ++ [markerIds.getD (99 - extraId) 0]).filter
            (fun x => decide (x ∈ markerIds)) =
            middle.filter (fun x => decide (x ∈ markerIds)) ++
              [markerIds.getD (99 - extraId) 0] := by
          rw [List.filter_append, List.filter_cons,
            if_pos (by simpa using hmem), List.filter_nil]
        rw [hfm, hcnt, List.range_succ_eq_map, List.map_cons, List.map_map]
        have hmapeq : (List.range (rest.countP isLabTok)).map
            ((fun j => markerIds.getD (99 - (extraId + j)) 0) ∘ (· + 1)) =
            (List.range (rest.countP isLabTok)).map
              (fun j => markerIds.getD (99 - (extraId + 1 + j)) 0) := by
          apply List.map_congr_left
          intro a _
          simp only [Function.comp]
          congr 1
          omega
        rw [hmapeq]
        rw [List.append_assoc, List.singleton_append]
        congr 2

/-! ### Shape lemmas for `process_chunk` -/

theorem expand_false_length (maskId : Int) (mixed : List MTok) :
    (expand_types_as_tks false maskId mixed).length = mixed.length := by
  induction mixed with
  | nil => rfl
  | cons e rest ih =>
      have hcons : expand_types_as_tks false maskId (e :: rest) =
          (match e with
            | MTok.tok i => [i]
            | MTok.lab _ => [maskId]) ++
            expand_types_as_tks false maskId rest := by
        cases e <;> rfl
      rw [hcons, List.length_append, ih]
      cases e <;> simp <;> omega

theorem paddedChunk_length (padId : Int) (ctx : Nat) (tks0 : List MTok)
    (h : tks0.length ≤ ctx) : (paddedChunk padId ctx tks0).length = ctx := by
  simp only [paddedChunk, List.length_append, List.length_replicate]
  omega

theorem windowOf_length (args : CtxArgs) (padId : Int) (tks0 : List MTok)
    (hlen : tks0.length ≤ args.ctx_size)
    (hmar : args.left_margin + args.right_margin ≤ args.ctx_size) :
    (windowOf args padId tks0).length = args.window_size := by
  unfold windowOf
  rw [List.length_take, List.length_drop,
    paddedChunk_length _ _ _ hlen]
  unfold CtxArgs.window_size
  omega

theorem left_ctx_length (maskId : Int) (l : List MTok) (n : Nat)
    (hn : n ≤ l.length) :
    (pySliceLast n (expand_types_as_tks false maskId (l.take n))).length
      = n := by
  by_cases h0 : n = 0
  · subst h0
    simp [pySliceLast, expand_types_as_tks]
  · have hexp : (expand_types_as_tks false maskId (l.take n)).length =
        min n l.length := by
      rw [expand_false_length, List.length_take]
    rw [pySliceLast, if_neg h0, List.length_drop, hexp]
    omega

theorem right_ctx_length (maskId : Int) (l : List MTok) (n : Nat)
    (hn : n ≤ l.length) :
    ((expand_types_as_tks false maskId (pySliceLast n l)).take n).length
      = n := by
  rw [List.length_take, expand_false_length]
  by_cases h0 : n = 0
  · subst h0
    simp
  · rw [pySliceLast, if_neg h0, List.length_drop]
    omega

theorem labsOf_length (w : List MTok) :
    (labsOf w).length = w.countP isLabTok := by
  induction w with
  | nil => rfl
  | cons e rest ih =>
      cases e with
      | tok i => simp [labsOf, List.countP_cons, isLabTok] at ih ⊢; omega
      | lab t => simp [labsOf, List.countP_cons, isLabTok] at ih ⊢; omega

/-- The plain (non-label) token ids of a mixed stream. -/
def plainToks (w : List MTok) : List Int :=
  w.filterMap fun e =>
    match e with
    | .tok x => some x
    | .lab _ => none

theorem mem_plainToks {w : List MTok} {x : Int} :
    x ∈ plainToks w ↔ MTok.tok x ∈ w := by
  unfold plainToks
  rw [List.mem_filterMap]
  constructor
  · rintro ⟨e, he, hfe⟩
    cases e with
    | tok y =>
        simp only [Option.some.injEq] at hfe
        subst hfe
        exact he
    | lab t => simp at hfe
  · intro h
    exact ⟨MTok.tok x, h, rfl⟩

theorem labelFold_ok (markerIds : List Int) (h100 : markerIds.length = 100) :
    ∀ (l : List (List Int)) (i : Nat) (acc : List Int),
      i + l.length ≤ 100 →
      ∃ out, l.foldlM (labelStep markerIds) (i, acc) = .ok out
  | [], i, acc, _ => ⟨(i, acc), rfl⟩
  | tks :: rest, i, acc, hbound => by
      have hle : i ≤ 99 := by
        simp only [List.length_cons] at hbound
        omega
      obtain ⟨m, hm⟩ := pyGet_isSome markerIds ((99 : Int) - (i : Int))
        (by rw [h100]; omega) (by rw [h100]; omega)
      obtain ⟨out, hout⟩ := labelFold_ok markerIds h100 rest (i + 1)
        (acc ++ [m] ++ tks)
        (by simp only [List.length_cons] at hbound; omega)
      refine ⟨out, ?_⟩
      rw [List.foldlM_cons]
      have hstep : labelStep markerIds (i, acc) tks = .ok (i + 1, acc ++ [m] ++ tks) := by
        simp only [labelStep, hm]
      rw [hstep]
      exact hout

theorem scan_overflow (markerIds : List Int) (h100 : markerIds.length = 100) :
    ∀ (w : List MTok) (extraId : Nat) (middle : List Int)
      (labs : List LabelTuple),
      100 < extraId + w.countP isLabTok → extraId ≤ 100 →
      w.foldlM (scanStep markerIds) (extraId, middle, labs) =
        .error "> 99 annotations in a single sequence"
  | [], extraId, middle, labs, hover, hle => by
      simp only [List.countP_nil] at hover
      omega
  | .tok i :: rest, extraId, middle, labs, hover, hle => by
      rw [List.foldlM_cons]
      have hstep : scanStep markerIds (extraId, middle, labs) (.tok i) =
          .ok (extraId, middle ++ [i], labs) := rfl
      rw [hstep]
      exact scan_overflow markerIds h100 rest extraId (middle ++ [i]) labs
        (by simp [List.countP_cons, isLabTok] at hover; omega) hle
  | .lab t :: rest, extraId, middle, labs, hover, hle => by
      rw [List.foldlM_cons]
      by_cases h99 : extraId ≤ 99
      · obtain ⟨m, hm⟩ := pyGet_isSome markerIds ((99 : Int) - (extraId : Int))
          (by rw [h100]; omega) (by rw [h100]; omega)
        have hstep : scanStep markerIds (extraId, middle, labs) (.lab t) =
            .ok (extraId + 1, middle ++ [m], labs ++ [t]) := by
          simp only [scanStep, if_pos h99, hm]
        rw [hstep]
        exact scan_overflow markerIds h100 rest (extraId + 1) (middle ++ [m])
          (labs ++ [t])
          (by simp [List.countP_cons, isLabTok] at hover; omega)
          (by omega)
      · have hstep : scanStep markerIds (extraId, middle, labs) (.lab t) =
            .error "> 99 annotations in a single sequence" := by
          simp only [scanStep, if_neg h99]
        rw [hstep]
        rfl

theorem process_chunk_some (tkn : Tokenizer) (args : CtxArgs)
    (tks0 : List MTok) (h100 : tkn.addSpecialIds.length = 100)
    (hlen : tks0.length ≤ args.ctx_size)
    (hmar : args.left_margin + args.right_margin ≤ args.ctx_size)
    (hctx : args.types_in_ctx = false)
    (hlo : 1 ≤ windowLabels args tkn.padId tks0)
    (hhi : windowLabels args tkn.padId tks0 ≤ 100) :
    ∃ (c : ChunkOutput) (middle : List Int),
      process_chunk tkn args tks0 = .ok (some c) ∧
      c.input_ids.length = args.ctx_size ∧
      (c.input_ids.drop args.left_margin).take args.window_size = middle ∧
      c.meta.types = (labsOf (windowOf args tkn.padId tks0)).map
        LabelTuple.ty ∧
      c.meta.types.length = windowLabels args tkn.padId tks0 ∧
      ((∀ x ∈ plainToks (windowOf args tkn.padId tks0),
          x ∉ tkn.addSpecialIds) →
        middle.filter (fun x => decide (x ∈ tkn.addSpecialIds)) =
          (List.range (windowLabels args tkn.padId tks0)).map
            (fun j => tkn.addSpecialIds.getD (99 - j) 0)) := by
  have hcnt : (windowOf args tkn.padId tks0).countP isLabTok =
      windowLabels args tkn.padId tks0 := rfl
  obtain ⟨middle, hscan, hmlen, hmfil⟩ := scan_spec tkn.addSpecialIds h100
    (windowOf args tkn.padId tks0) 0 [] [] (by rw [hcnt]; omega)
  rw [hcnt] at hscan hmfil
  simp only [Nat.zero_add, List.nil_append] at hscan
  have hwin : (windowOf args tkn.padId tks0).length = args.window_size :=
    windowOf_length args tkn.padId tks0 hlen hmar
  have hmlen' : middle.length = args.window_size := by
    simp only [List.length_nil, Nat.zero_add] at hmlen
    rw [hmlen, hwin]
  have hpadlen : (paddedChunk tkn.padId args.ctx_size tks0).length =
      args.ctx_size := paddedChunk_length _ _ _ hlen
  have hl : (pySliceLast args.left_margin
      (expand_types_as_tks args.types_in_ctx tkn.maskId
        ((paddedChunk tkn.padId args.ctx_size tks0).take
          args.left_margin))).length = args.left_margin := by
    rw [hctx]
    exact left_ctx_length _ _ _ (by rw [hpadlen]; omega)
  have hr : ((expand_types_as_tks args.types_in_ctx tkn.maskId
      (pySliceLast args.right_margin
        (paddedChunk tkn.padId args.ctx_size tks0))).take
          args.right_margin).length = args.right_margin := by
    rw [hctx]
    exact right_ctx_length _ _ _ (by rw [hpadlen]; omega)
  obtain ⟨⟨li, body⟩, hfold⟩ := labelFold_ok tkn.addSpecialIds h100
    ((labsOf (windowOf args tkn.padId tks0)).map LabelTuple.tks) 0 []
    (by rw [List.length_map, labsOf_length, hcnt]; omega)
  have hin : (pySliceLast args.left_margin
        (expand_types_as_tks args.types_in_ctx tkn.maskId
          ((paddedChunk tkn.padId args.ctx_size tks0).take
            args.left_margin)) ++ middle ++
      (expand_types_as_tks args.types_in_ctx tkn.maskId
        (pySliceLast args.right_margin
          (paddedChunk tkn.padId args.ctx_size tks0))).take
            args.right_margin).length = args.ctx_size := by
    simp only [List.length_append, hl, hr, hmlen']
    unfold CtxArgs.window_size
    omega
  have hproc : process_chunk tkn args tks0 = .ok (some
      { input_ids := pySliceLast args.left_margin
          (expand_types_as_tks args.types_in_ctx tkn.maskId
            ((paddedChunk tkn.padId args.ctx_size tks0).take
              args.left_margin)) ++ middle ++
          (expand_types_as_tks args.types_in_ctx tkn.maskId
            (pySliceLast args.right_margin
              (paddedChunk tkn.padId args.ctx_size tks0))).take
                args.right_margin
        labels := [tkn.bosId] ++ body ++ [tkn.eosId]
        meta :=
          { types := (labsOf (windowOf args tkn.padId tks0)).map
              LabelTuple.ty
            annots_info := (labsOf (windowOf args tkn.padId tks0)).map
              LabelTuple.info
            src_ids := (labsOf (windowOf args tkn.padId tks0)).map
              LabelTuple.src_id } }) := by
    unfold process_chunk
    simp only [bind, Except.bind, hscan]
    rw [if_neg (by omega : ¬ windowLabels args tkn.padId tks0 = 0)]
    rw [if_pos hl, if_pos hr, if_pos hin]
    simp only [hfold, pure, Except.pure]
  refine ⟨_, middle, hproc, ?_, ?_, rfl, ?_, ?_⟩
  · exact hin
  · dsimp only
    rw [List.append_assoc, List.drop_left' hl, List.take_left' hmlen']
  · dsimp only
    rw [List.length_map, labsOf_length, hcnt]
  · intro hplain
    have := hmfil (fun x hx => hplain x (mem_plainToks.mpr hx))
    rw [this]
    simp only [List.filter_nil, List.nil_append]
    apply List.map_congr_left
    intro a _
    congr 1
    omega

theorem process_chunk_none (tkn : Tokenizer) (args : CtxArgs)
    (tks0 : List MTok) (h100 : tkn.addSpecialIds.length = 100)
    (hcount : windowLabels args tkn.padId tks0 = 0) :
    process_chunk tkn args tks0 = .ok none := by
  have hcnt : (windowOf args tkn.padId tks0).countP isLabTok =
      windowLabels args tkn.padId tks0 := rfl
  obtain ⟨middle, hscan, _, _⟩ := scan_spec tkn.addSpecialIds h100
    (windowOf args tkn.padId tks0) 0 [] [] (by rw [hcnt]; omega)
  rw [hcnt] at hscan
  simp only [Nat.zero_add, List.nil_append] at hscan
  unfold process_chunk
  simp only [bind, Except.bind, hscan]
  rw [if_pos hcount]
  rfl

theorem process_chunk_overflow (tkn : Tokenizer) (args : CtxArgs)
    (tks0 : List MTok) (h100 : tkn.addSpecialIds.length = 100)
    (hover : 100 < windowLabels args tkn.padId tks0) :
    process_chunk tkn args tks0 =
      .error "> 99 annotations in a single sequence" := by
  have hcnt : (windowOf args tkn.padId tks0).countP isLabTok =
      windowLabels args tkn.padId tks0 := rfl
  have hserr := scan_overflow tkn.addSpecialIds h100
    (windowOf args tkn.padId tks0) 0 [] [] (by rw [hcnt]; omega) (by omega)
  unfold process_chunk
  simp only [bind, Except.bind, hserr]

theorem desc_markers_nodup (markerIds : List Int)
    (h100 : markerIds.length = 100) (hnd : markerIds.Nodup) (n : Nat)
    (hn : n ≤ 100) :
    ((List.range n).map (fun i => markerIds.getD (99 - i) 0)).Nodup := by
  apply List.Nodup.map_on _ (List.nodup_range n)
  intro x hx y hy hxy
  rw [List.mem_range] at hx hy
  have hxl : 99 - x < markerIds.length := by rw [h100]; omega
  have hyl : 99 - y < markerIds.length := by rw [h100]; omega
  rw [List.getD_eq_getElem _ _ hxl, List.getD_eq_getElem _ _ hyl] at hxy
  have := (List.Nodup.getElem_inj_iff hnd).mp hxy
  omega

/-- **C1.**  For every candidate chunk, the labels found in the central
window are assigned marker ids in strictly increasing source-position
(left-to-right) order mapping to descending marker slots starting at 99
(the `i`-th label in window order gets the reserved id of slot `99 - i`),
the number of distinct marker ids present in `input_ids`'s central window
equals `len(SrcChunkInfo.types)`, and a window containing more than 100
labels fails with the assertion
`"> 99 annotations in a single sequence"`. -/
theorem C1_marker_assignment (tkn : Tokenizer) (args : CtxArgs)
    (tks0 : List MTok)
    (h100 : tkn.addSpecialIds.length = 100)
    (hnd : tkn.addSpecialIds.Nodup)
    (hplain : ∀ x ∈ plainToks (windowOf args tkn.padId tks0),
      x ∉ tkn.addSpecialIds)
    (hlen : tks0.length ≤ args.ctx_size)
    (hmar : args.left_margin + args.right_margin ≤ args.ctx_size)
    (hctx : args.types_in_ctx = false) :
    (1 ≤ windowLabels args tkn.padId tks0 →
      windowLabels args tkn.padId tks0 ≤ 100 →
      ∃ c, process_chunk tkn args tks0 = .ok (some c) ∧
        c.meta.types.length = windowLabels args tkn.padId tks0 ∧
        ((c.input_ids.drop args.left_margin).take args.window_size).filter
            (fun x => decide (x ∈ tkn.addSpecialIds)) =
          (List.range c.meta.types.length).map
            (fun i => tkn.addSpecialIds.getD (99 - i) 0) ∧
        (((c.input_ids.drop args.left_margin).take args.window_size).filter
            (fun x => decide (x ∈ tkn.addSpecialIds))).dedup.length =
          c.meta.types.length) ∧
    (100 < windowLabels args tkn.padId tks0 →
      process_chunk tkn args tks0 =
        .error "> 99 annotations in a single sequence") := by
  constructor
  · intro hlo hhi
    obtain ⟨c, middle, hproc, _, hdroptake, _, hlenc, hfil⟩ :=
      process_chunk_some tkn args tks0 h100 hlen hmar hctx hlo hhi
    refine ⟨c, hproc, hlenc, ?_, ?_⟩
    · rw [hdroptake, hfil hplain, hlenc]
    · rw [hdroptake, hfil hplain]
      have hnodup := desc_markers_nodup tkn.addSpecialIds h100 hnd
        (windowLabels args tkn.padId tks0) hhi
      rw [List.dedup_eq_self.mpr hnodup, List.length_map, List.length_range,
        hlenc]
  · intro hover
    exact process_chunk_overflow tkn args tks0 h100 hover

theorem tok0_markers_nodup : tok0.addSpecialIds.Nodup := by
  show (List.map (fun i : Nat => (1000 : Int) + (i : Int))
    (List.range 100)).Nodup
  apply List.Nodup.map_on _ (List.nodup_range 100)
  intro x _ y _ h
  omega

def labA : LabelTuple :=
  { ty := .Named "int", info := { path := "a" }, tks := [361], src_id := 0 }

def labB : LabelTuple :=
  { ty := .Named "str", info := { path := "b" }, tks := [375], src_id := 0 }

def args1 : CtxArgs := { ctx_size := 8, left_margin := 2, right_margin := 2 }

def wtks : List MTok :=
  [.tok 5, .tok 6, .lab labA, .lab labB, .tok 7, .tok 8, .tok 9, .tok 10]

/-! ### `chunk_srcs`-level lemmas (claim C6) -/

theorem candidates_length_le (all_tks : List MTok) (ctx stride : Nat) :
    ∀ cand ∈ chunk_candidates all_tks ctx stride, cand.length ≤ ctx := by
  intro cand hc
  rw [chunk_candidates, List.mem_map] at hc
  obtain ⟨i, _, rfl⟩ := hc
  rw [List.length_take]
  omega

theorem candidates_getD (all_tks : List MTok) (ctx stride : Nat) (i : Nat)
    (hi : i < (all_tks.length + stride - 1) / stride) :
    (chunk_candidates all_tks ctx stride).getD i [] =
      (all_tks.drop (i * stride)).take ctx := by
  rw [chunk_candidates]
  have hlen : i < ((List.range ((all_tks.length + stride - 1) / stride)).map
      (fun i => (all_tks.drop (i * stride)).take ctx)).length := by
    rw [List.length_map, List.length_range]
    exact hi
  rw [List.getD_eq_getElem _ _ hlen, List.getElem_map, List.getElem_range]

theorem candidates_length (all_tks : List MTok) (ctx stride : Nat) :
    (chunk_candidates all_tks ctx stride).length =
      (all_tks.length + stride - 1) / stride := by
  rw [chunk_candidates, List.length_map, List.length_range]

theorem mapM_ok_spec (f : List MTok → Except String (Option ChunkOutput)) :
    ∀ (l : List (List MTok)),
      (∀ a ∈ l, ∃ b, f a = .ok b) →
      ∃ out, l.mapM f = .ok out ∧ out.length = l.length ∧
        ∀ i, i < l.length → f (l.getD i []) = .ok (out.getD i none)
  | [], _ => ⟨[], rfl, by simp, by intro i h; simp at h⟩
  | a :: l, h => by
      obtain ⟨b, hb⟩ := h a (List.mem_cons_self _ _)
      obtain ⟨out, hmapm, hlen, hidx⟩ := mapM_ok_spec f l
        (fun x hx => h x (List.mem_cons_of_mem _ hx))
      refine ⟨b :: out, ?_, by simp [hlen], ?_⟩
      · rw [List.mapM_cons, hb]
        simp only [bind, Except.bind, hmapm, pure, Except.pure]
      · intro i hi
        cases i with
        | zero => simpa using hb
        | succ j =>
            simp only [List.getD_cons_succ]
            exact hidx j (by simpa using hi)

theorem emitted_spec (outs : List (Option ChunkOutput)) (i : Nat)
    (c : ChunkOutput)
    (h : (i, c) ∈ outs.enum.filterMap
      (fun p => p.2.map (fun c => (p.1, c)))) :
    i < outs.length ∧ outs.getD i none = some c := by
  rw [List.mem_filterMap] at h
  obtain ⟨p, hp, hmap⟩ := h
  obtain ⟨j, o⟩ := p
  cases o with
  | none => simp at hmap
  | some c' =>
      have hmap' : (j, c') = (i, c) := by simpa using hmap
      have hji : j = i := congrArg Prod.fst hmap'
      have hcc : c' = c := congrArg Prod.snd hmap'
      subst hji
      subst hcc
      have hj := List.mem_enum_iff_getElem?.mp hp
      simp only at hj
      constructor
      · exact (List.getElem?_eq_some_iff.mp hj).1
      · rw [List.getD_eq_getElem?_getD, hj]
        rfl

/-- **C6.**  `chunk_srcs` slides its window over the concatenated stream
with step `ctx_args.window_size = ctx_size - left_margin - right_margin`;
every emitted chunk's `input_ids` has length exactly `ctx_size`
(a short final candidate is right-padded with the pad token); and a
candidate whose central window holds zero labels is dropped — no entry of
the resulting dataset carries its chunk id. -/
theorem C6_chunker_slide_pad_drop (tkn : Tokenizer) (args : CtxArgs)
    (srcs : List TokenizedSrc)
    (h100 : tkn.addSpecialIds.length = 100)
    (hmar : args.left_margin + args.right_margin ≤ args.ctx_size)
    (hctx : args.types_in_ctx = false)
    (hcands : ∀ cand ∈ chunk_candidates (concat_srcs srcs) args.ctx_size
        args.window_size, windowLabels args tkn.padId cand ≤ 100) :
    (∀ i, i < ((concat_srcs srcs).length + args.window_size - 1) /
        args.window_size →
      (chunk_candidates (concat_srcs srcs) args.ctx_size
        args.window_size).getD i [] =
        ((concat_srcs srcs).drop (i * args.window_size)).take
          args.ctx_size) ∧
    ∃ out, chunk_srcs tkn args srcs = .ok out ∧
      (∀ e ∈ out, e.2.input_ids.length = args.ctx_size ∧
        e.2.meta.types ≠ []) ∧
      (∀ i, i < (chunk_candidates (concat_srcs srcs) args.ctx_size
          args.window_size).length →
        windowLabels args tkn.padId
          ((chunk_candidates (concat_srcs srcs) args.ctx_size
            args.window_size).getD i []) = 0 →
        ∀ e ∈ out, e.1 ≠ i) := by
  refine ⟨fun i hi => candidates_getD _ _ _ i hi, ?_⟩
  have htot : ∀ cand ∈ chunk_candidates (concat_srcs srcs) args.ctx_size
      args.window_size, ∃ b, process_chunk tkn args cand = .ok b := by
    intro cand hc
    have hle := candidates_length_le (concat_srcs srcs) args.ctx_size
      args.window_size cand hc
    have hcnt := hcands cand hc
    by_cases h0 : windowLabels args tkn.padId cand = 0
    · exact ⟨none, process_chunk_none tkn args cand h100 h0⟩
    · obtain ⟨c, _, hp, _⟩ := process_chunk_some tkn args cand h100 hle hmar
        hctx (by omega) hcnt
      exact ⟨some c, hp⟩
  obtain ⟨outs, hmapm, hleno, hidx⟩ := mapM_ok_spec (process_chunk tkn args)
    (chunk_candidates (concat_srcs srcs) args.ctx_size args.window_size) htot
  have hcs : chunk_srcs tkn args srcs = .ok (outs.enum.filterMap
      (fun p => p.2.map (fun c => (p.1, c)))) := by
    unfold chunk_srcs
    simp only [bind, Except.bind, hmapm, pure, Except.pure]
  refine ⟨_, hcs, ?_, ?_⟩
  · intro e he
    obtain ⟨i, c⟩ := e
    obtain ⟨hilt, houts⟩ := emitted_spec outs i c he
    have hi2 : i < (chunk_candidates (concat_srcs srcs) args.ctx_size
        args.window_size).length := by omega
    have hproc := hidx i hi2
    rw [houts] at hproc
    have hmem := getD_mem (chunk_candidates (concat_srcs srcs) args.ctx_size
      args.window_size) i [] hi2
    have hle := candidates_length_le (concat_srcs srcs) args.ctx_size
      args.window_size _ hmem
    have hcnt := hcands _ hmem
    by_cases h0 : windowLabels args tkn.padId
        ((chunk_candidates (concat_srcs srcs) args.ctx_size
          args.window_size).getD i []) = 0
    · rw [process_chunk_none tkn args _ h100 h0] at hproc
      exact absurd (Except.ok.inj hproc) (by simp)
    · obtain ⟨c', _, hp, hlc, _, _, hcl, _⟩ := process_chunk_some tkn args _
        h100 hle hmar hctx (by omega) hcnt
      rw [hp] at hproc
      simp only [Except.ok.injEq, Option.some.injEq] at hproc
      subst hproc
      refine ⟨hlc, ?_⟩
      intro hnil
      rw [hnil] at hcl
      simp only [List.length_nil] at hcl
      omega
  · intro i hi h0 e he heq
    obtain ⟨j, c⟩ := e
    have heq' : j = i := heq
    subst heq'
    obtain ⟨hilt, houts⟩ := emitted_spec outs _ _ he
    have hproc := hidx _ hi
    rw [houts, process_chunk_none tkn args _ h100 h0] at hproc
    exact absurd (Except.ok.inj hproc) (by simp)

def args2 : CtxArgs := { ctx_size := 4, left_margin := 1, right_margin := 1 }

/-- Witness for C6: one tokenized source, two candidate windows, one of
which has no central-window label and is dropped. -/
theorem C6_witness :
    (∀ i, i < ((concat_srcs [w5res]).length + args2.window_size - 1) /
        args2.window_size →
      (chunk_candidates (concat_srcs [w5res]) args2.ctx_size
        args2.window_size).getD i [] =
        ((concat_srcs [w5res]).drop (i * args2.window_size)).take
          args2.ctx_size) ∧
    ∃ out, chunk_srcs tok0 args2 [w5res] = .ok out ∧
      (∀ e ∈ out, e.2.input_ids.length = args2.ctx_size ∧
        e.2.meta.types ≠ []) ∧
      (∀ i, i < (chunk_candidates (concat_srcs [w5res]) args2.ctx_size
          args2.window_size).length →
        windowLabels args2 tok0.padId
          ((chunk_candidates (concat_srcs [w5res]) args2.ctx_size
            args2.window_size).getD i []) = 0 →
        ∀ e ∈ out, e.1 ≠ i) :=
  C6_chunker_slide_pad_drop tok0 args2 [w5res] (by rfl) (by decide) rfl
    (by decide)

/-- Witness for C1 at a concrete candidate chunk with two window labels. -/
theorem C1_witness :
    (1 ≤ windowLabels args1 tok0.padId wtks →
      windowLabels args1 tok0.padId wtks ≤ 100 →
      ∃ c, process_chunk tok0 args1 wtks = .ok (some c) ∧
        c.meta.types.length = windowLabels args1 tok0.padId wtks ∧
        ((c.input_ids.drop args1.left_margin).take args1.window_size).filter
            (fun x => decide (x ∈ tok0.addSpecialIds)) =
          (List.range c.meta.types.length).map
            (fun i => tok0.addSpecialIds.getD (99 - i) 0) ∧
        (((c.input_ids.drop args1.left_margin).take args1.window_size).filter
            (fun x => decide (x ∈ tok0.addSpecialIds))).dedup.length =
          c.meta.types.length) ∧
    (100 < windowLabels args1 tok0.padId wtks →
      process_chunk tok0 args1 wtks =
        .error "> 99 annotations in a single sequence") :=
  C1_marker_assignment tok0 args1 wtks (by rfl) tok0_markers_nodup
    (by decide) (by decide) (by decide) rfl

/-! ## DAgger training loop (spot/dagger.py, claims C3, C9)

State of `DAggerTrainingState` as touched by `_process_batch`,
`_train_on_batch`, `_update_model` and `_empty_buffer`.  The deque is a
list: `appendleft` conses at the head, `pop` removes the last element.
External side effects — `model.forward`/`backward` (one per trained
batch), `optimizer.step()` and `save_pretrained` — are recorded as
instrumentation fields (`trained`, `n_updates`, `n_saves`). -/

structure DagState (B : Type) where
  /-- `args.replay_buffer_size`. -/
  buffer_size : Nat
  /-- `args.grad_accum_steps`. -/
  accum_steps : Nat
  /-- `save_every = n_labels // saves_per_epoch` (from `train_on_data`). -/
  save_every : Nat
  replay_buffer : List B
  grad_counter : Nat
  save_counter : Nat
  /-- instrumentation: batches passed to `model.forward`, in order. -/
  trained : List B
  /-- instrumentation: `optimizer.step()` count. -/
  n_updates : Nat
  /-- instrumentation: `save_pretrained` count. -/
  n_saves : Nat

/-- `DAggerModel._update_model`: clip/step/zero-grad, then
`save_counter += grad_counter`; save and subtract the threshold once the
counter crosses it; finally clear `grad_counter`. -/
def updateModel {B : Type} (s : DagState B) : DagState B :=
  let s1 := { s with n_updates := s.n_updates + 1 }
  let sc := s1.save_counter + s1.grad_counter
  let s2 :=
    if s1.save_every ≤ sc then
      { s1 with n_saves := s1.n_saves + 1, save_counter := sc - s1.save_every }
    else
      { s1 with save_counter := sc }
  { s2 with grad_counter := 0 }

/-- `DAggerModel._train_on_batch`: one forward/backward pass, increment
the gradient counter, update parameters after `accum_steps` accumulated
batches. -/
def trainOnBatch {B : Type} (b : B) (s : DagState B) : DagState B :=
  let s1 := { s with
    trained := s.trained ++ [b], grad_counter := s.grad_counter + 1 }
  if s1.accum_steps ≤ s1.grad_counter then updateModel s1 else s1

/-- `DAggerModel._process_batch`: `appendleft` the new batch; if the
buffer exceeds its capacity, `assert_eq(len, size + 1)`, `pop` the oldest
(rightmost) batch and train on it. -/
def processBatch {B : Type} (b : B) (s : DagState B) :
    Except String (DagState B) :=
  let s1 := { s with replay_buffer := b :: s.replay_buffer }
  if s.buffer_size < s1.replay_buffer.length then
    if s1.replay_buffer.length = s.buffer_size + 1 then
      match s1.replay_buffer.getLast? with
      | some old =>
          .ok (trainOnBatch old
            { s1 with replay_buffer := s1.replay_buffer.dropLast })
      | none => .error "pop from an empty deque"
    else .error "assert_eq failed: len(replay_buffer) != buffer_size + 1"
  else .ok s1

theorem updateModel_frame {B : Type} (s : DagState B) :
    (updateModel s).replay_buffer = s.replay_buffer ∧
    (updateModel s).trained = s.trained ∧
    (updateModel s).buffer_size = s.buffer_size ∧
    (updateModel s).accum_steps = s.accum_steps ∧
    (updateModel s).save_every = s.save_every ∧
    (updateModel s).grad_counter = 0 := by
  unfold updateModel
  dsimp only
  split <;> exact ⟨rfl, rfl, rfl, rfl, rfl, rfl⟩

theorem trainOnBatch_frame {B : Type} (b : B) (s : DagState B) :
    (trainOnBatch b s).replay_buffer = s.replay_buffer ∧
    (trainOnBatch b s).trained = s.trained ++ [b] ∧
    (trainOnBatch b s).buffer_size = s.buffer_size ∧
    (trainOnBatch b s).accum_steps = s.accum_steps ∧
    (trainOnBatch b s).save_every = s.save_every := by
  unfold trainOnBatch
  dsimp only
  split
  · obtain ⟨h1, h2, h3, h4, h5, _⟩ := updateModel_frame
      { s with
        trained := s.trained ++ [b]
        grad_counter := s.grad_counter + 1 }
    exact ⟨h1, h2, h3, h4, h5⟩
  · exact ⟨rfl, rfl, rfl, rfl, rfl⟩

/-- `DAggerModel._empty_buffer`'s drain loop:
`while state.replay_buffer: batch = pop(); train`. -/
def emptyBufferLoop {B : Type} (s : DagState B) : DagState B :=
  match hgl : s.replay_buffer.getLast? with
  | none => s
  | some b =>
      emptyBufferLoop (trainOnBatch b
        { s with replay_buffer := s.replay_buffer.dropLast })
termination_by s.replay_buffer.length
decreasing_by
  have hne : s.replay_buffer ≠ [] := by
    intro hh
    rw [hh] at hgl
    simp at hgl
  have h1 := (trainOnBatch_frame b
    { s with replay_buffer := s.replay_buffer.dropLast }).1
  simp only [h1, List.length_dropLast]
  have : 0 < s.replay_buffer.length := List.length_pos.mpr hne
  omega

/-- `DAggerModel._empty_buffer`: drain the buffer, then perform one final
parameter update if any gradient remains unflushed. -/
def emptyBuffer {B : Type} (s : DagState B) : DagState B :=
  let s1 := emptyBufferLoop s
  if 0 < s1.grad_counter then updateModel s1 else s1

/-- The `DAggerTrainingState` as `train_on_data` initialises it. -/
def initState (B : Type) (c a e : Nat) : DagState B :=
  { buffer_size := c, accum_steps := a, save_every := e,
    replay_buffer := [], grad_counter := 0, save_counter := 0,
    trained := [], n_updates := 0, n_saves := 0 }

theorem processBatch_spec {B : Type} (b : B) (s : DagState B)
    (hinv : s.replay_buffer.length ≤ s.buffer_size) :
    ∃ s', processBatch b s = .ok s' ∧
      s'.replay_buffer.length =
        min (s.replay_buffer.length + 1) s.buffer_size ∧
      s'.trained.length = s.trained.length +
        (s.replay_buffer.length + 1 - s.buffer_size) ∧
      s'.buffer_size = s.buffer_size ∧
      s'.accum_steps = s.accum_steps ∧
      s'.save_every = s.save_every := by
  by_cases hfull : s.buffer_size < s.replay_buffer.length + 1
  · have hne : (b :: s.replay_buffer) ≠ [] := by simp
    obtain ⟨old, hold⟩ := Option.isSome_iff_exists.mp
      (List.getLast?_isSome.mpr hne)
    obtain ⟨hb1, hb2, hb3, hb4, hb5⟩ := trainOnBatch_frame old
      { s with replay_buffer := (b :: s.replay_buffer).dropLast }
    refine ⟨trainOnBatch old
      { s with replay_buffer := (b :: s.replay_buffer).dropLast },
      ?_, ?_, ?_, hb3, hb4, hb5⟩
    · unfold processBatch
      dsimp only
      rw [if_pos (by simp only [List.length_cons]; omega),
        if_pos (by simp only [List.length_cons]; omega), hold]
    · rw [hb1]
      simp only [List.dropLast_cons_of_ne_nil, List.length_dropLast,
        List.length_cons]
      omega
    · rw [hb2]
      simp only [List.length_append, List.length_cons, List.length_nil]
      omega
  · refine ⟨{ s with replay_buffer := b :: s.replay_buffer }, ?_, ?_, ?_,
      rfl, rfl, rfl⟩
    · unfold processBatch
      dsimp only
      rw [if_neg (by simp only [List.length_cons]; omega)]
    · simp only [List.length_cons]
      omega
    · simp only
      omega

theorem pushFold_spec {B : Type} : ∀ (bs : List B) (s : DagState B),
    s.replay_buffer.length ≤ s.buffer_size →
    ∃ s', bs.foldlM (fun st b => processBatch b st) s = .ok s' ∧
      s'.replay_buffer.length =
        min (s.replay_buffer.length + bs.length) s.buffer_size ∧
      s'.trained.length = s.trained.length +
        (s.replay_buffer.length + bs.length - s.buffer_size) ∧
      s'.buffer_size = s.buffer_size ∧
      s'.accum_steps = s.accum_steps ∧
      s'.save_every = s.save_every
  | [], s, hinv =>
      ⟨s, rfl, by simp only [List.length_nil]; omega,
        by simp only [List.length_nil]; omega, rfl, rfl, rfl⟩
  | b :: bs, s, hinv => by
      obtain ⟨s1, hp, hlen1, htr1, hc1, hc2, hc3⟩ := processBatch_spec b s
        hinv
      obtain ⟨s', hfold, hlen2, htr2, hd1, hd2, hd3⟩ := pushFold_spec bs s1
        (by rw [hc1]; omega)
      refine ⟨s', ?_, ?_, ?_, by rw [hd1, hc1], by rw [hd2, hc2],
        by rw [hd3, hc3]⟩
      · rw [List.foldlM_cons, hp]
        exact hfold
      · rw [hlen2, hlen1, hc1]
        simp only [List.length_cons]
        omega
      · rw [htr2, htr1, hlen1, hc1]
        simp only [List.length_cons]
        omega

theorem emptyBufferLoop_none {B : Type} (s : DagState B)
    (h : s.replay_buffer = []) : emptyBufferLoop s = s := by
  unfold emptyBufferLoop
  split
  · rfl
  · rename_i b hgl
    rw [h] at hgl
    simp at hgl

theorem emptyBufferLoop_cons {B : Type} (s : DagState B) (b : B)
    (h : s.replay_buffer.getLast? = some b) :
    emptyBufferLoop s = emptyBufferLoop (trainOnBatch b
      { s with replay_buffer := s.replay_buffer.dropLast }) := by
  conv_lhs => rw [emptyBufferLoop]
  split
  · rename_i hgl
    rw [h] at hgl
    exact Option.noConfusion hgl
  · rename_i b' hgl
    rw [h] at hgl
    cases Option.some.inj hgl
    rfl

theorem emptyBufferLoop_spec {B : Type} : ∀ (n : Nat) (s : DagState B),
    s.replay_buffer.length ≤ n →
    (emptyBufferLoop s).replay_buffer = [] ∧
    (emptyBufferLoop s).trained.length =
      s.trained.length + s.replay_buffer.length ∧
    (emptyBufferLoop s).buffer_size = s.buffer_size ∧
    (emptyBufferLoop s).accum_steps = s.accum_steps ∧
    (emptyBufferLoop s).save_every = s.save_every
  | 0, s, hn => by
      have hnil : s.replay_buffer = [] := List.length_eq_zero.mp (by omega)
      rw [emptyBufferLoop_none s hnil, hnil]
      simp
  | n + 1, s, hn => by
      cases hgl : s.replay_buffer.getLast? with
      | none =>
          have hnil : s.replay_buffer = [] :=
            List.getLast?_eq_none_iff.mp hgl
          rw [emptyBufferLoop_none s hnil, hnil]
          simp
      | some b =>
          have hne : s.replay_buffer ≠ [] := by
            intro hh
            rw [hh] at hgl
            simp at hgl
          have hpos : 0 < s.replay_buffer.length := List.length_pos.mpr hne
          obtain ⟨hf1, hf2, hf3, hf4, hf5⟩ := trainOnBatch_frame b
            { s with replay_buffer := s.replay_buffer.dropLast }
          obtain ⟨h1, h2, h3, h4, h5⟩ := emptyBufferLoop_spec n
            (trainOnBatch b
              { s with replay_buffer := s.replay_buffer.dropLast })
            (by rw [hf1]; simp only [List.length_dropLast]; omega)
          rw [emptyBufferLoop_cons s b hgl]
          refine ⟨h1, ?_, by rw [h3, hf3], by rw [h4, hf4],
            by rw [h5, hf5]⟩
          rw [h2, hf2, hf1]
          simp only [List.length_append, List.length_cons, List.length_nil,
            List.length_dropLast]
          omega

theorem emptyBuffer_spec {B : Type} (s : DagState B) :
    (emptyBuffer s).replay_buffer = [] ∧
    (emptyBuffer s).trained.length =
      s.trained.length + s.replay_buffer.length ∧
    (emptyBuffer s).grad_counter = 0 := by
  obtain ⟨h1, h2, _, _, _⟩ := emptyBufferLoop_spec s.replay_buffer.length s
    (Nat.le_refl _)
  unfold emptyBuffer
  dsimp only
  split
  · obtain ⟨u1, u2, _, _, _, u6⟩ := updateModel_frame (emptyBufferLoop s)
    exact ⟨by rw [u1, h1], by rw [u2]; exact h2, u6⟩
  · rename_i hng
    exact ⟨h1, h2, by omega⟩

theorem processBatch_evict {B : Type} (b : B) (s : DagState B)
    (hfull : s.replay_buffer.length = s.buffer_size) :
    ∃ old s', (b :: s.replay_buffer).getLast? = some old ∧
      processBatch b s = .ok s' ∧
      s'.replay_buffer = (b :: s.replay_buffer).dropLast ∧
      s'.trained = s.trained ++ [old] := by
  have hne : (b :: s.replay_buffer) ≠ [] := by simp
  obtain ⟨old, hold⟩ := Option.isSome_iff_exists.mp
    (List.getLast?_isSome.mpr hne)
  obtain ⟨hb1, hb2, _, _, _⟩ := trainOnBatch_frame old
    { s with replay_buffer := (b :: s.replay_buffer).dropLast }
  refine ⟨old, trainOnBatch old
    { s with replay_buffer := (b :: s.replay_buffer).dropLast },
    hold, ?_, hb1, hb2⟩
  unfold processBatch
  dsimp only
  rw [if_pos (by simp only [List.length_cons]; omega),
    if_pos (by simp only [List.length_cons]; omega), hold]

/-- **C3.**  Pushing `k > c` batches into a replay buffer of capacity `c`
never lets the buffer exceed `c` after a push (the `appendleft`ed list
transiently holds `c + 1` entries before the oldest is evicted and trained
on), triggers exactly `j - min j c` training passes after the `j`-th push
(hence exactly `k - c` in total, interleaved with the pushes), and the
end-of-epoch drain trains on the remaining `c` batches and leaves no
gradient unflushed (one final update fires exactly when gradient
remains). -/
theorem C3_replay_buffer_discipline (B : Type) (bs : List B) (c a e : Nat)
    (hk : c < bs.length) :
    (∀ j, j ≤ bs.length →
      ∃ sj, (bs.take j).foldlM (fun st b => processBatch b st)
          (initState B c a e) = .ok sj ∧
        sj.replay_buffer.length = min j c ∧
        sj.trained.length = j - min j c) ∧
    (∃ s', bs.foldlM (fun st b => processBatch b st) (initState B c a e)
        = .ok s' ∧
      s'.trained.length = bs.length - c ∧
      s'.replay_buffer.length = c ∧
      (emptyBuffer s').replay_buffer = [] ∧
      (emptyBuffer s').trained.length = bs.length ∧
      (emptyBuffer s').grad_counter = 0) ∧
    (∀ (b : B) (s : DagState B), s.buffer_size = c →
      s.replay_buffer.length = c →
      (b :: s.replay_buffer).length = c + 1 ∧
      ∃ old s', (b :: s.replay_buffer).getLast? = some old ∧
        processBatch b s = .ok s' ∧
        s'.replay_buffer = (b :: s.replay_buffer).dropLast ∧
        s'.trained = s.trained ++ [old]) := by
  refine ⟨?_, ?_, ?_⟩
  · intro j hj
    obtain ⟨sj, hfold, hlen, htr, _, _, _⟩ := pushFold_spec (bs.take j)
      (initState B c a e) (by simp [initState])
    refine ⟨sj, hfold, ?_, ?_⟩
    · rw [hlen]
      simp only [initState, List.length_nil, List.length_take]
      omega
    · rw [htr]
      simp only [initState, List.length_nil, List.length_take]
      omega
  · obtain ⟨s', hfold, hlen, htr, _, _, _⟩ := pushFold_spec bs
      (initState B c a e) (by simp [initState])
    obtain ⟨he1, he2, he3⟩ := emptyBuffer_spec s'
    refine ⟨s', hfold, ?_, ?_, he1, ?_, he3⟩
    · rw [htr]
      simp [initState]
    · rw [hlen]
      simp only [initState, List.length_nil]
      omega
    · rw [he2, htr, hlen]
      simp only [initState, List.length_nil]
      omega
  · intro b s hbs hfull
    refine ⟨by simp only [List.length_cons]; omega, ?_⟩
    exact processBatch_evict b s (by omega)

/-- Witness for C3: five batches through a capacity-2 buffer. -/
theorem C3_witness :
    (∀ j, j ≤ [10, 11, 12, 13, 14].length →
      ∃ sj, ([10, 11, 12, 13, 14].take j).foldlM
          (fun st b => processBatch b st) (initState Nat 2 3 5) = .ok sj ∧
        sj.replay_buffer.length = min j 2 ∧
        sj.trained.length = j - min j 2) ∧
    (∃ s', [10, 11, 12, 13, 14].foldlM (fun st b => processBatch b st)
        (initState Nat 2 3 5) = .ok s' ∧
      s'.trained.length = [10, 11, 12, 13, 14].length - 2 ∧
      s'.replay_buffer.length = 2 ∧
      (emptyBuffer s').replay_buffer = [] ∧
      (emptyBuffer s').trained.length = [10, 11, 12, 13, 14].length ∧
      (emptyBuffer s').grad_counter = 0) ∧
    (∀ (b : Nat) (s : DagState Nat), s.buffer_size = 2 →
      s.replay_buffer.length = 2 →
      (b :: s.replay_buffer).length = 2 + 1 ∧
      ∃ old s', (b :: s.replay_buffer).getLast? = some old ∧
        processBatch b s = .ok s' ∧
        s'.replay_buffer = (b :: s.replay_buffer).dropLast ∧
        s'.trained = s.trained ++ [old]) :=
  C3_replay_buffer_discipline Nat [10, 11, 12, 13, 14] 2 3 5 (by decide)

/-! ### Checkpoint spacing (claim C9) -/

theorem add_div_mod_cross (x a e : Nat) (he : 0 < e) (ha : a ≤ e) :
    ((x + a) / e = x / e + (if e ≤ x % e + a then 1 else 0)) ∧
    ((x + a) % e = x % e + a - (if e ≤ x % e + a then e else 0)) := by
  have hx := Nat.div_add_mod x e
  have hr : x % e < e := Nat.mod_lt _ he
  by_cases hc : e ≤ x % e + a
  · rw [if_pos hc, if_pos hc]
    have hmul : e * (x / e + 1) = e * (x / e) + e := by ring
    have hdecomp : x + a = (x % e + a - e) + e * (x / e + 1) := by omega
    constructor
    · rw [hdecomp, Nat.add_mul_div_left _ _ he, Nat.div_eq_of_lt (by omega)]
      omega
    · rw [hdecomp, Nat.add_mul_mod_self_left, Nat.mod_eq_of_lt (by omega)]
  · rw [if_neg hc, if_neg hc]
    have hdecomp : x + a = (x % e + a) + e * (x / e) := by omega
    constructor
    · rw [hdecomp, Nat.add_mul_div_left _ _ he, Nat.div_eq_of_lt (by omega)]
      omega
    · rw [hdecomp, Nat.add_mul_mod_self_left, Nat.mod_eq_of_lt (by omega)]
      omega

theorem succ_div_mod (m a : Nat) (ha : 0 < a) :
    ((m + 1) / a = m / a + (if m % a + 1 = a then 1 else 0)) ∧
    ((m + 1) % a = (if m % a + 1 = a then 0 else m % a + 1)) := by
  have hx := Nat.div_add_mod m a
  have hr : m % a < a := Nat.mod_lt _ ha
  by_cases hc : m % a + 1 = a
  · rw [if_pos hc, if_pos hc]
    have hmul : a * (m / a + 1) = a * (m / a) + a := by ring
    have hdecomp : m + 1 = 0 + a * (m / a + 1) := by omega
    constructor
    · rw [hdecomp, Nat.add_mul_div_left _ _ ha, Nat.div_eq_of_lt (by omega)]
      omega
    · rw [hdecomp, Nat.add_mul_mod_self_left, Nat.mod_eq_of_lt (by omega)]
  · rw [if_neg hc, if_neg hc]
    have hdecomp : m + 1 = (m % a + 1) + a * (m / a) := by omega
    constructor
    · rw [hdecomp, Nat.add_mul_div_left _ _ ha, Nat.div_eq_of_lt (by omega)]
      omega
    · rw [hdecomp, Nat.add_mul_mod_self_left, Nat.mod_eq_of_lt (by omega)]

/-- The running invariant of the gradient/checkpoint counters: after any
prefix of trained batches, the counters are determined by the number of
trained batches (`a` = `grad_accum_steps`, `e` = `save_every`). -/
def TrainInv {B : Type} (a e : Nat) (s : DagState B) : Prop :=
  s.accum_steps = a ∧ s.save_every = e ∧
  s.grad_counter = s.trained.length % a ∧
  s.n_updates = s.trained.length / a ∧
  s.save_counter = (a * (s.trained.length / a)) % e ∧
  s.n_saves = (a * (s.trained.length / a)) / e

theorem trainOnBatch_inv {B : Type} (a e : Nat) (ha : 0 < a) (hae : a ≤ e)
    (b : B) (s : DagState B) (h : TrainInv a e s) :
    TrainInv a e (trainOnBatch b s) := by
  obtain ⟨h1, h2, h3, h4, h5, h6⟩ := h
  have he : 0 < e := by omega
  have hmlt : s.trained.length % a < a := Nat.mod_lt _ ha
  have hlen1 : (s.trained ++ [b]).length = s.trained.length + 1 := by
    simp
  obtain ⟨hsd, hsm⟩ := succ_div_mod s.trained.length a ha
  obtain ⟨hcd, hcm⟩ := add_div_mod_cross (a * (s.trained.length / a)) a e
    he hae
  unfold trainOnBatch
  dsimp only
  by_cases hcond : s.accum_steps ≤ s.grad_counter + 1
  · rw [if_pos hcond]
    have hga : s.grad_counter + 1 = a := by omega
    have hmod : s.trained.length % a + 1 = a := by omega
    unfold updateModel
    dsimp only
    by_cases hsc : s.save_every ≤ s.save_counter + (s.grad_counter + 1)
    · rw [if_pos hsc]
      refine ⟨h1, h2, ?_, ?_, ?_, ?_⟩
      · show (0 : Nat) = (s.trained ++ [b]).length % a
        rw [hlen1, hsm, if_pos hmod]
      · show s.n_updates + 1 = (s.trained ++ [b]).length / a
        rw [hlen1, hsd, if_pos hmod, h4]
      · show s.save_counter + (s.grad_counter + 1) - s.save_every =
          (a * ((s.trained ++ [b]).length / a)) % e
        rw [hlen1, hsd, if_pos hmod]
        have hmul : a * (s.trained.length / a + 1) =
            a * (s.trained.length / a) + a := by ring
        rw [hmul, hcm,
          if_pos (by rw [h5, hga] at hsc; rw [h2] at hsc; exact hsc)]
        rw [h5, h2, hga]
      · show s.n_saves + 1 = (a * ((s.trained ++ [b]).length / a)) / e
        rw [hlen1, hsd, if_pos hmod]
        have hmul : a * (s.trained.length / a + 1) =
            a * (s.trained.length / a) + a := by ring
        rw [hmul, hcd,
          if_pos (by rw [h5, hga] at hsc; rw [h2] at hsc; exact hsc)]
        rw [h6]
    · rw [if_neg hsc]
      refine ⟨h1, h2, ?_, ?_, ?_, ?_⟩
      · show (0 : Nat) = (s.trained ++ [b]).length % a
        rw [hlen1, hsm, if_pos hmod]
      · show s.n_updates + 1 = (s.trained ++ [b]).length / a
        rw [hlen1, hsd, if_pos hmod, h4]
      · show s.save_counter + (s.grad_counter + 1) =
          (a * ((s.trained ++ [b]).length / a)) % e
        rw [hlen1, hsd, if_pos hmod]
        have hmul : a * (s.trained.length / a + 1) =
            a * (s.trained.length / a) + a := by ring
        rw [hmul, hcm,
          if_neg (by rw [h5, hga] at hsc; rw [h2] at hsc; exact hsc)]
        omega
      · show s.n_saves = (a * ((s.trained ++ [b]).length / a)) / e
        rw [hlen1, hsd, if_pos hmod]
        have hmul : a * (s.trained.length / a + 1) =
            a * (s.trained.length / a) + a := by ring
        rw [hmul, hcd,
          if_neg (by rw [h5, hga] at hsc; rw [h2] at hsc; exact hsc)]
        rw [h6]
        omega
  · rw [if_neg hcond]
    have hmod : ¬ (s.trained.length % a + 1 = a) := by omega
    refine ⟨h1, h2, ?_, ?_, ?_, ?_⟩
    · show s.grad_counter + 1 = (s.trained ++ [b]).length % a
      rw [hlen1, hsm, if_neg hmod, h3]
    · show s.n_updates = (s.trained ++ [b]).length / a
      rw [hlen1, hsd, if_neg hmod, h4]
      omega
    · show s.save_counter = (a * ((s.trained ++ [b]).length / a)) % e
      rw [hlen1, hsd, if_neg hmod]
      rw [h5]
      congr 2
    · show s.n_saves = (a * ((s.trained ++ [b]).length / a)) / e
      rw [hlen1, hsd, if_neg hmod]
      rw [h6]
      congr 2

theorem trainFold_inv {B : Type} (a e : Nat) (ha : 0 < a) (hae : a ≤ e) :
    ∀ (bs : List B) (s : DagState B), TrainInv a e s →
      TrainInv a e (bs.foldl (fun st b => trainOnBatch b st) s)
  | [], _, h => h
  | b :: bs, s, h =>
      trainFold_inv a e ha hae bs (trainOnBatch b s)
        (trainOnBatch_inv a e ha hae b s h)

theorem trainFold_length {B : Type} : ∀ (bs : List B) (s : DagState B),
    (bs.foldl (fun st b => trainOnBatch b st) s).trained.length =
      s.trained.length + bs.length
  | [], s => by simp
  | b :: bs, s => by
      rw [List.foldl_cons, trainFold_length bs (trainOnBatch b s),
        (trainOnBatch_frame b s).2.1]
      simp only [List.length_append, List.length_cons, List.length_nil]
      omega

/-- **C9.**  `_update_model` saves a checkpoint exactly when the running
counter of consumed labels crosses the threshold
`save_every = n_labels // saves_per_epoch` (the counter is then lowered by
the threshold, keeping the overflow), so over any training run from a
fresh state the number of saves equals the flushed-label count divided by
the threshold — checkpoints are evenly spaced in consumed labels. -/
theorem C9_checkpoint_spacing (B : Type) (bs : List B)
    (c a e n_labels saves_per_epoch : Nat)
    (he : e = n_labels / saves_per_epoch)
    (ha : 0 < a) (hae : a ≤ e) :
    (∀ s : DagState B, s.save_every = e →
      ((updateModel s).n_saves = s.n_saves + 1 ↔
        e ≤ s.save_counter + s.grad_counter) ∧
      (updateModel s).save_counter = s.save_counter + s.grad_counter -
        (if e ≤ s.save_counter + s.grad_counter then e else 0) ∧
      (updateModel s).grad_counter = 0) ∧
    ((bs.foldl (fun st b => trainOnBatch b st) (initState B c a e)).n_saves
        = (a * (bs.length / a)) / e ∧
      (bs.foldl (fun st b => trainOnBatch b st)
        (initState B c a e)).save_counter = (a * (bs.length / a)) % e ∧
      (bs.foldl (fun st b => trainOnBatch b st)
        (initState B c a e)).grad_counter = bs.length % a ∧
      (bs.foldl (fun st b => trainOnBatch b st)
        (initState B c a e)).n_updates = bs.length / a) := by
  constructor
  · intro s hse
    unfold updateModel
    dsimp only
    by_cases hsc : s.save_every ≤ s.save_counter + s.grad_counter
    · rw [if_pos hsc]
      rw [hse] at hsc
      refine ⟨by simpa using hsc, ?_, rfl⟩
      rw [if_pos hsc, hse]
    · rw [if_neg hsc]
      rw [hse] at hsc
      refine ⟨?_, ?_, rfl⟩
      · constructor
        · intro hcontra
          dsimp only at hcontra
          omega
        · intro hcontra
          exact absurd hcontra hsc
      · rw [if_neg hsc]
        dsimp only
        omega
  · have hinv0 : TrainInv a e (initState B c a e) := by
      refine ⟨rfl, rfl, ?_, ?_, ?_, ?_⟩ <;> simp [initState]
    have hinv := trainFold_inv a e ha hae bs (initState B c a e) hinv0
    have hlen := trainFold_length bs (initState B c a e)
    obtain ⟨_, _, h3, h4, h5, h6⟩ := hinv
    rw [hlen] at h3 h4 h5 h6
    simp only [initState, List.length_nil, Nat.zero_add] at h3 h4 h5 h6
    exact ⟨h6, h5, h3, h4⟩

/-- Witness for C9: four batches, `grad_accum_steps = 2`,
`save_every = 10 // 2 = 5`. -/
theorem C9_witness :
    (∀ s : DagState Nat, s.save_every = 5 →
      ((updateModel s).n_saves = s.n_saves + 1 ↔
        5 ≤ s.save_counter + s.grad_counter) ∧
      (updateModel s).save_counter = s.save_counter + s.grad_counter -
        (if 5 ≤ s.save_counter + s.grad_counter then 5 else 0) ∧
      (updateModel s).grad_counter = 0) ∧
    (([0, 1, 2, 3].foldl (fun st b => trainOnBatch b st)
        (initState Nat 7 2 5)).n_saves = (2 * ([0, 1, 2, 3].length / 2)) / 5 ∧
      ([0, 1, 2, 3].foldl (fun st b => trainOnBatch b st)
        (initState Nat 7 2 5)).save_counter =
          (2 * ([0, 1, 2, 3].length / 2)) % 5 ∧
      ([0, 1, 2, 3].foldl (fun st b => trainOnBatch b st)
        (initState Nat 7 2 5)).grad_counter = [0, 1, 2, 3].length % 2 ∧
      ([0, 1, 2, 3].foldl (fun st b => trainOnBatch b st)
        (initState Nat 7 2 5)).n_updates = [0, 1, 2, 3].length / 2) :=
  C9_checkpoint_spacing Nat [0, 1, 2, 3] 7 2 5 10 2 (by rfl) (by decide)
    (by decide)

/-! ## Rollout Coordinator (`DAggerModel.rollout_on_src`, claim C4)

The per-file rollout loop.  Collaborators — `src_to_batch`, the model's
`predict_on_batch` (whose invocations are counted), and the
type-checker/`get_typechecked_src` regeneration applied to the original
source with the current assignment — are interface parameters;
`random.random()` is an abstract draw stream `rng : Nat → ℚ` (one draw
per step). -/

structure RolloutEnv (Src Batch : Type) where
  /-- `src_to_batch(new_src, t, ctx_args)`. -/
  srcToBatch : Src → Nat → Batch
  /-- `mr.predict_on_batch(batch)`, then `preds[0][0]`. -/
  predict : Batch → PythonType
  /-- `type_check_src_in_project` + `get_typechecked_src` on the original
  source with the current full assignment. -/
  regen : List (Nat × PythonType) → Src

structure RolloutResult (Src Batch : Type) where
  type_assignment : List (Nat × PythonType) := []
  batch_seq : List Batch := []
  src_seq : List Src := []
  used_expert : List Bool := []
  /-- instrumentation: `predict_on_batch` invocations. -/
  n_model_calls : Nat := 0

/-- One iteration of `rollout_on_src`'s `for t, label in
enumerate(src.types)` loop. -/
def rolloutStep {Src Batch : Type} (env : RolloutEnv Src Batch)
    (expert_rate : ℚ) (rng : Nat → ℚ)
    (st : Src × RolloutResult Src Batch) (p : Nat × PythonType) :
    Src × RolloutResult Src Batch :=
  let new_src := st.1
  let r := st.2
  let t := p.1
  let label := p.2
  let use_expert := decide (rng t < expert_rate)
  let r1 := { r with used_expert := r.used_expert ++ [use_expert] }
  let batch := env.srcToBatch new_src t
  let r2 := { r1 with batch_seq := r1.batch_seq ++ [batch] }
  let r3 :=
    if use_expert then
      { r2 with type_assignment := r2.type_assignment ++ [(t, label)] }
    else
      { r2 with
        type_assignment := r2.type_assignment ++ [(t, env.predict batch)]
        n_model_calls := r2.n_model_calls + 1 }
  let next_src := env.regen r3.type_assignment
  (next_src, { r3 with src_seq := r3.src_seq ++ [next_src] })

/-- `DAggerModel.rollout_on_src`. -/
def rollout_on_src {Src Batch : Type} (env : RolloutEnv Src Batch)
    (expert_rate : ℚ) (rng : Nat → ℚ) (src0 : Src)
    (types : List PythonType) : RolloutResult Src Batch :=
  (types.enum.foldl (rolloutStep env expert_rate rng) (src0, {})).2

theorem rolloutFold_expert {Src Batch : Type} (env : RolloutEnv Src Batch)
    (rng : Nat → ℚ) (hr : ∀ t, rng t < 1) :
    ∀ (ps : List (Nat × PythonType)) (st : Src × RolloutResult Src Batch),
      (ps.foldl (rolloutStep env 1 rng) st).2.type_assignment =
        st.2.type_assignment ++ ps ∧
      (ps.foldl (rolloutStep env 1 rng) st).2.used_expert =
        st.2.used_expert ++ List.replicate ps.length true ∧
      (ps.foldl (rolloutStep env 1 rng) st).2.n_model_calls =
        st.2.n_model_calls
  | [], st => ⟨by simp, by simp, rfl⟩
  | (t, label) :: ps, st => by
      have hue : decide (rng t < (1 : ℚ)) = true := decide_eq_true (hr t)
      obtain ⟨ih1, ih2, ih3⟩ := rolloutFold_expert env rng hr ps
        (rolloutStep env 1 rng st (t, label))
      have h1 : (rolloutStep env 1 rng st (t, label)).2.type_assignment =
          st.2.type_assignment ++ [(t, label)] := by
        simp [rolloutStep, hue]
      have h2 : (rolloutStep env 1 rng st (t, label)).2.used_expert =
          st.2.used_expert ++ [true] := by
        simp [rolloutStep, hue]
      have h3 : (rolloutStep env 1 rng st (t, label)).2.n_model_calls =
          st.2.n_model_calls := by
        simp [rolloutStep, hue]
      rw [List.foldl_cons]
      refine ⟨?_, ?_, ?_⟩
      · rw [ih1, h1]
        simp
      · rw [ih2, h2]
        simp only [List.length_cons, List.replicate_succ, List.append_assoc,
          List.singleton_append]
      · rw [ih3, h3]

/-- **C4.**  A rollout with `expert_rate = 1.0` reveals ground truth at
every step: the final assignment is exactly `enumerate(src.types)` (label
index `t` maps to `src.types[t]`), every `used_expert` flag is `true`,
and the model-inference collaborator `predict_on_batch` is never
invoked. -/
theorem C4_full_expert_rollout (Src Batch : Type)
    (env : RolloutEnv Src Batch) (rng : Nat → ℚ) (hr : ∀ t, rng t < 1)
    (src0 : Src) (types : List PythonType) :
    (rollout_on_src env 1 rng src0 types).type_assignment = types.enum ∧
    (∀ t, t < types.length →
      (rollout_on_src env 1 rng src0 types).type_assignment.getD t
        (0, PythonType.Any) = (t, types.getD t PythonType.Any)) ∧
    (rollout_on_src env 1 rng src0 types).used_expert =
      List.replicate types.length true ∧
    (rollout_on_src env 1 rng src0 types).n_model_calls = 0 := by
  obtain ⟨h1, h2, h3⟩ := rolloutFold_expert env rng hr types.enum
    (src0, ({} : RolloutResult Src Batch))
  have ha : (rollout_on_src env 1 rng src0 types).type_assignment =
      types.enum := by
    unfold rollout_on_src
    rw [h1]
    simp
  refine ⟨ha, ?_, ?_, ?_⟩
  · intro t ht
    rw [ha]
    have hte : t < types.enum.length := by
      rw [List.enum_length]
      exact ht
    rw [List.getD_eq_getElem _ _ hte, List.getD_eq_getElem _ _ ht]
    rw [List.getElem_enum]
  · unfold rollout_on_src
    rw [h2]
    simp [List.enum_length]
  · unfold rollout_on_src
    rw [h3]

def env4 : RolloutEnv Nat Nat where
  srcToBatch := fun s t => s + t
  predict := fun _ => PythonType.Any
  regen := fun l => l.length

/-- Witness for C4 at a concrete two-label rollout. -/
theorem C4_witness :
    (rollout_on_src env4 1 (fun _ => 0) 0
      [PythonType.Named "int", PythonType.Any]).type_assignment =
      [PythonType.Named "int", PythonType.Any].enum ∧
    (∀ t, t < [PythonType.Named "int", PythonType.Any].length →
      (rollout_on_src env4 1 (fun _ => 0) 0
        [PythonType.Named "int", PythonType.Any]).type_assignment.getD t
          (0, PythonType.Any) =
        (t, [PythonType.Named "int", PythonType.Any].getD t
          PythonType.Any)) ∧
    (rollout_on_src env4 1 (fun _ => 0) 0
      [PythonType.Named "int", PythonType.Any]).used_expert =
      List.replicate [PythonType.Named "int", PythonType.Any].length true ∧
    (rollout_on_src env4 1 (fun _ => 0) 0
      [PythonType.Named "int", PythonType.Any]).n_model_calls = 0 :=
  C4_full_expert_rollout Nat Nat env4 (fun _ => 0)
    (fun _ => by norm_num) 0 [PythonType.Named "int", PythonType.Any]

/-! ## `SrcDataset.from_repos` RNG discipline (claim C10)

`random.getstate` / `random.seed` / `random.random` / `random.setstate`
over an abstract PRNG: state type `σ`, seeding function `seedFn`, and a
draw `next : σ → ℚ × σ`.  Each retained masked source is represented by
its label count (`len(x["types"])`); parse failures are `none` and are
skipped by the loop's `continue`. -/

/-- `[random.random() < label_ratio for _ in range(n)]`. -/
def sampleFlags {σ : Type} (next : σ → ℚ × σ) (labelFrac : ℚ) :
    Nat → σ → List Bool × σ
  | 0, g => ([], g)
  | n + 1, g =>
      let v := (next g).1
      let g1 := (next g).2
      let rest := sampleFlags next labelFrac n g1
      (decide (v < labelFrac) :: rest.1, rest.2)

/-- The `for i, x in enumerate(masked_srcs)` loop of `from_repos`
(restricted to its RNG effects): `None` entries are skipped, each retained
entry samples one `is_label` list. -/
def labelPassLoop {σ : Type} (next : σ → ℚ × σ) (labelFrac : ℚ) :
    List (Option Nat) → σ → List (List Bool) × σ
  | [], g => ([], g)
  | none :: ms, g => labelPassLoop next labelFrac ms g
  | some n :: ms, g =>
      let flags := sampleFlags next labelFrac n g
      let rest := labelPassLoop next labelFrac ms flags.2
      (flags.1 :: rest.1, rest.2)

/-- The label-sampling block of `SrcDataset.from_repos`
(lines 525–535): `rands = random.getstate()`, `random.seed(seed)`,
sample `is_label` for every retained source, `random.setstate(rands)`.
The returned state component is the process-global RNG state after the
block. -/
def from_repos_label_pass {σ : Type} (seedFn : Nat → σ)
    (next : σ → ℚ × σ) (seed : Nat) (labelFrac : ℚ)
    (masked : List (Option Nat)) (g0 : σ) : List (List Bool) × σ :=
  let rands := g0
  let g1 := seedFn seed
  ((labelPassLoop next labelFrac masked g1).1, rands)

theorem sampleFlags_length {σ : Type} (next : σ → ℚ × σ) (labelFrac : ℚ) :
    ∀ (n : Nat) (g : σ), (sampleFlags next labelFrac n g).1.length = n
  | 0, _ => rfl
  | n + 1, g => by
      simp only [sampleFlags, List.length_cons]
      rw [sampleFlags_length next labelFrac n]

theorem labelPassLoop_lengths {σ : Type} (next : σ → ℚ × σ)
    (labelFrac : ℚ) :
    ∀ (ms : List (Option Nat)) (g : σ),
      ((labelPassLoop next labelFrac ms g).1).map List.length =
        ms.filterMap id
  | [], _ => rfl
  | none :: ms, g => by
      simp only [labelPassLoop, List.filterMap_cons]
      exact labelPassLoop_lengths next labelFrac ms g
  | some n :: ms, g => by
      simp only [labelPassLoop, List.filterMap_cons, List.map_cons, id]
      rw [sampleFlags_length next labelFrac n,
        labelPassLoop_lengths next labelFrac ms]

/-- **C10.**  The label-sampling block of `SrcDataset.from_repos` leaves
the process-global RNG state unchanged (it restores the saved state), the
sampled `is_label` flag lists depend only on the seed — not on the
caller's RNG state — and one flag list of the right length is produced
per retained (non-`None`) masked source. -/
theorem C10_from_repos_rng_frame {σ : Type} (seedFn : Nat → σ)
    (next : σ → ℚ × σ) (seed : Nat) (labelFrac : ℚ)
    (masked : List (Option Nat)) (g0 g0' : σ) :
    (from_repos_label_pass seedFn next seed labelFrac masked g0).2 = g0 ∧
    (from_repos_label_pass seedFn next seed labelFrac masked g0).1 =
      (from_repos_label_pass seedFn next seed labelFrac masked g0').1 ∧
    ((from_repos_label_pass seedFn next seed labelFrac masked g0).1).map
      List.length = masked.filterMap id :=
  ⟨rfl, rfl, labelPassLoop_lengths next labelFrac masked (seedFn seed)⟩

/-! ## Feedback Patcher priority (`patch_code_with_extra`, claim C8) -/

/-- `SpecialNames.TypeMask` (defined in `spot.utils`, outside `src/`):
the sentinel name inserted at the new prediction site. -/
def TypeMask : String := "SPOT_TYPE_MASK"

/-- One text edit: target range, priority tag, replacement text. -/
abbrev Edit := CodeRange × Nat × String

/-- The edit list built by `patch_code_with_extra`: for every previous
prediction, the mask replacement over its range with priority 1 followed
by the prior-prediction comment at its start position with priority 2;
then for every diagnostic, the error comment at its position with
priority 3. -/
def patchReplaces (predictions : List (CodeRange × String))
    (errors : List (CodePosition × String)) : List Edit :=
  (predictions.flatMap fun rt =>
    [(rt.1, 1, TypeMask),
     (⟨rt.1.start, rt.1.start⟩, 2, "/* " ++ rt.2 ++ " */")]) ++
  errors.map fun pe => (⟨pe.1, pe.1⟩, 3, "/* error: " ++ pe.2 ++ " */")

/-- The order in which `replace_strs_by_pos` applies edits: by start
position, ties broken by the priority tag (lower tag first). -/
def editLE (x y : Edit) : Bool :=
  decide (x.1.start.line < y.1.start.line) ||
  (decide (x.1.start.line = y.1.start.line) &&
    (decide (x.1.start.column < y.1.start.column) ||
      (decide (x.1.start.column = y.1.start.column) &&
        decide (x.2.1 ≤ y.2.1))))

def sortEdits (rs : List Edit) : List Edit := rs.mergeSort editLE

/-- Line/column (1-based line, 0-based column) to character offset. -/
def posToOffset (code : String) (p : CodePosition) : Nat :=
  let lines := code.splitOn "\n"
  (((lines.take (p.line.toNat - 1)).map (fun l => l.length + 1)).sum) +
    p.column.toNat

/-- Splice sorted edits into the character stream: emit the untouched
text up to each edit's start, then its replacement, skipping the replaced
range. -/
def spliceLoop (chars : List Char) :
    Nat → List (Nat × Nat × String) → String
  | cursor, [] => String.mk (chars.drop cursor)
  | cursor, e :: rest =>
      String.mk ((chars.drop cursor).take (e.1 - cursor)) ++ e.2.2 ++
        spliceLoop chars (max cursor e.2.1) rest

/-- Modelled from the spec: `replace_strs_by_pos` lives in `spot.utils`,
which is not under `src/`.  Per the spec (§4.1: "a defined priority order
when ranges coincide: new-prediction-mask > prior-prediction-comment >
diagnostic-comment"; §6: the parser collaborator applies point-position
text edits), it applies the edits in source-position order, breaking ties
at coincident positions by the integer priority tag, lower tag first. -/
def replace_strs_by_pos (code : String) (replaces : List Edit) : String :=
  spliceLoop code.toList 0
    ((sortEdits replaces).map fun e =>
      (posToOffset code e.1.start, posToOffset code e.1.stop, e.2.2))

/-- `patch_code_with_extra` from `spot/data.py`. -/
def patch_code_with_extra (code : String)
    (predictions : List (CodeRange × String))
    (errors : List (CodePosition × String)) : String :=
  replace_strs_by_pos code (patchReplaces predictions errors)

/-- **C8.**  `patch_code_with_extra` gives the new-prediction mask
priority 1, the prior-prediction comment priority 2 and the diagnostic
comment priority 3; the applied edit sequence is sorted under `editLE`,
which at coincident start positions orders strictly by those tags — so a
mask is applied before the prediction comment, which precedes a
diagnostic comment at the same position. -/
theorem C8_patch_priority (code : String)
    (preds : List (CodeRange × String))
    (errs : List (CodePosition × String)) :
    patch_code_with_extra code preds errs =
      replace_strs_by_pos code (patchReplaces preds errs) ∧
    (∀ rt ∈ preds,
      (rt.1, 1, TypeMask) ∈ sortEdits (patchReplaces preds errs) ∧
      ((⟨rt.1.start, rt.1.start⟩ : CodeRange), 2, "/* " ++ rt.2 ++ " */") ∈
        sortEdits (patchReplaces preds errs)) ∧
    (∀ pe ∈ errs,
      ((⟨pe.1, pe.1⟩ : CodeRange), 3, "/* error: " ++ pe.2 ++ " */") ∈
        sortEdits (patchReplaces preds errs)) ∧
    List.Pairwise (fun x y => editLE x y = true)
      (sortEdits (patchReplaces preds errs)) ∧
    (∀ x y : Edit, x.1.start = y.1.start → x.2.1 < y.2.1 →
      editLE x y = true ∧ editLE y x = false) := by
  refine ⟨rfl, ?_, ?_, ?_, ?_⟩
  · intro rt hrt
    constructor
    · rw [sortEdits, List.mem_mergeSort, patchReplaces, List.mem_append]
      left
      rw [List.mem_flatMap]
      exact ⟨rt, hrt, by simp⟩
    · rw [sortEdits, List.mem_mergeSort, patchReplaces, List.mem_append]
      left
      rw [List.mem_flatMap]
      exact ⟨rt, hrt, by simp⟩
  · intro pe hpe
    rw [sortEdits, List.mem_mergeSort, patchReplaces, List.mem_append]
    right
    rw [List.mem_map]
    exact ⟨pe, hpe, rfl⟩
  · apply List.sorted_mergeSort
    · intro a b c hab hbc
      simp only [editLE, Bool.or_eq_true, Bool.and_eq_true,
        decide_eq_true_eq] at hab hbc ⊢
      omega
    · intro a b
      simp only [editLE, Bool.or_eq_true, Bool.and_eq_true,
        decide_eq_true_eq]
      omega
  · intro x y hstart hpri
    have hline : x.1.start.line = y.1.start.line := by rw [hstart]
    have hcol : x.1.start.column = y.1.start.column := by rw [hstart]
    constructor
    · simp only [editLE, Bool.or_eq_true, Bool.and_eq_true,
        decide_eq_true_eq]
      omega
    · simp [editLE, hline, hcol]
      omega

end Spot
